import Mathlib

/-!
Verification of the scan-and-resolve core of the `keyboard` firmware
(`firmware/keyboard.h`, `firmware/keyboard.cpp`, `firmware/constants.h`).

The embedding below translates the C++ source directly:
* `Ze.Key` mirrors `struct Key` (three `int` fields) together with its
  classification predicates and its `operator==`.
* `Ze.SendState` mirrors the persistent resolution state of `Ze::Board`
  (`keys_to_send`, `codes_to_send`), modelled as functions on `Fin 6`
  (`MAX_NUM_KEYS = 6`); `Ze::Board::init` zeroes them.
* `Ze.remove_released_keys`, `Ze.try_place_key`, `Ze.place_keys` and
  `Ze.update_keys_to_send` mirror the corresponding member functions.
* `Ze.scan_step` / `Ze.scan_keys` mirror `Ze::Board::scan_keys`, with the
  electrical read (`digitalRead` of a column while a row is driven low)
  abstracted as a boolean function of the matrix position, exactly the
  hardware-sense collaborator of the specification.
* The layout tables `KEYS` / `KEYS_SPECIAL` are reproduced entry by entry.
  The Teensy keycode constants (`KEY_A`, `KEYPAD_7`, ...) come from the
  external `Arduino.h`, outside this repository; they are HID key codes,
  so they are modelled as arbitrary nonnegative integers, an `ExtName`
  environment (the repository reserves the negative code space for its
  own modifier identities `KEY_LSHIFT .. KEY_FN2`).

C++ details kept faithfully:
* `uint8_t code` in `try_place_key` truncates the resolved code mod 256
  before it is stored into `codes_to_send` (an `int` array).
* `Key()` (the default constructor) only assigns `code = KEY_DUMMY`; every
  `Key()` the firmware ever reads back comes either from the statically
  zero-initialized global tables or is compared through `operator==`
  after an `is_dummy` test, so it is modelled as the all-zero key.
-/

namespace Ze

/-- `MAX_NUM_KEYS` from `constants.h`. -/
def MAX_NUM_KEYS : Nat := 6

/-- `NUM_ROWS` from `constants.h`. -/
def NUM_ROWS : Nat := 5

/-- `NUM_COLS` from `constants.h`. -/
def NUM_COLS : Nat := 14

/-- `KEY_DUMMY` from `keyboard.h`. -/
def KEY_DUMMY : Int := 0

/-- Modifier identity codes from `keyboard.h`. -/
def KEY_LSHIFT : Int := -1

def KEY_CTRL : Int := -2

def KEY_ALT : Int := -3

def KEY_ALTGR : Int := -4

def KEY_SUPER : Int := -5

def KEY_RSHIFT : Int := -6

/-- `KEY_FN` from `keyboard.h`. -/
def KEY_FN : Int := -7

/-- `KEY_FN2` from `keyboard.h`. -/
def KEY_FN2 : Int := -8

/-- `NUM_MODIFIERS` from `keyboard.h`. -/
def NUM_MODIFIERS : Nat := 6

/-- `struct Key` from `keyboard.h`: primary code, second and third function. -/
structure Key where
  code : Int
  second : Int
  third : Int
deriving DecidableEq, Repr

/-- `Ze::Key::Key()`: the dummy key (statically zero-initialized). -/
def mkKey0 : Key := ⟨KEY_DUMMY, KEY_DUMMY, KEY_DUMMY⟩

/-- `Ze::Key::Key(int code)`. -/
def mkKey1 (code : Int) : Key := ⟨code, KEY_DUMMY, KEY_DUMMY⟩

/-- `Ze::Key::Key(int code, int second)`. -/
def mkKey2 (code second : Int) : Key := ⟨code, second, KEY_DUMMY⟩

/-- `Ze::Key::Key(int code, int second, int third)`. -/
def mkKey3 (code second third : Int) : Key := ⟨code, second, third⟩

/-- `Ze::Key::is_modifier`: `code < 0`. -/
def Key.is_modifier (k : Key) : Bool := decide (k.code < 0)

/-- `Ze::Key::is_media`: `(0xFF00 & code) == 0xE400`. -/
def Key.is_media (k : Key) : Bool := decide (Int.land 0xFF00 k.code = 0xE400)

/-- `Ze::Key::is_dummy`: `code == KEY_DUMMY`. -/
def Key.is_dummy (k : Key) : Bool := decide (k.code = KEY_DUMMY)

/-- `Ze::Key::is_fn`: `code == KEY_FN`. -/
def Key.is_fn (k : Key) : Bool := decide (k.code = KEY_FN)

/-- `Ze::Key::is_fn2`: `code == KEY_FN2`. -/
def Key.is_fn2 (k : Key) : Bool := decide (k.code = KEY_FN2)

/-- `Ze::Key::has_second`: `second != KEY_DUMMY`. -/
def Key.has_second (k : Key) : Bool := decide (k.second ≠ KEY_DUMMY)

/-- `Ze::Key::has_third`: `third != KEY_DUMMY`. -/
def Key.has_third (k : Key) : Bool := decide (k.third ≠ KEY_DUMMY)

/-- `Ze::Key::operator==`: `code == other.code && second == other.second`
(the third function is not compared). -/
def keyEq (a b : Key) : Bool := decide (a.code = b.code) && decide (a.second = b.second)

/-- The code-selection chain of `Ze::Board::try_place_key` (lines 263-271):
second function if `has_second && fn_pressed`, else third if
`has_third && fn2_pressed`, else the primary code. -/
def resolve_code (fn fn2 : Bool) (k : Key) : Int :=
  if k.has_second && fn then k.second
  else if k.has_third && fn2 then k.third
  else k.code

/-- Code selection as the specification words it (section 4.3, "Code
resolution"): tertiary first when layer2 is active, then secondary when
layer1 is active, then primary. Stated only to be compared against
`resolve_code`, which is the translation of the source. -/
def resolve_code_spec (fn fn2 : Bool) (k : Key) : Int :=
  if k.has_third && fn2 then k.third
  else if k.has_second && fn then k.second
  else k.code

/-- The media-resolution branch of `Ze::Board::update_keys_to_send`
(lines 232-240): second function of the pressed media key if it has one
and FN is held, else its primary code; `0` when no media key was seen. -/
def resolve_media (fn : Bool) (pressed_media : Key) : Int :=
  if !pressed_media.is_dummy then
    if pressed_media.has_second && fn then pressed_media.second
    else pressed_media.code
  else 0

/-- The persistent resolution state of `Ze::Board`: the `keys_to_send` and
`codes_to_send` arrays (each of size `MAX_NUM_KEYS = 6`). -/
structure SendState where
  keys_to_send : Fin 6 → Key
  codes_to_send : Fin 6 → Int

/-- The part of `Ze::Board::init` that initializes the key buffers (lines
89-93): all slots dummy, all codes `0`. -/
def init_board : SendState :=
  { keys_to_send := fun _ => mkKey0, codes_to_send := fun _ => 0 }

/-- The membership test of `Ze::Board::remove_released_keys` (lines 201-207):
scan `curr_pressed_keys` for a slot key `k` with `operator==`. -/
def foundIn (curr : Fin 6 → Key) (k : Key) : Bool :=
  (List.finRange 6).any fun j => keyEq k (curr j)

/-- Release condition of one slot in `Ze::Board::remove_released_keys`:
the slot is occupied and its key is not in `curr_pressed_keys`. -/
def releasedCond (curr : Fin 6 → Key) (k : Key) : Bool :=
  !k.is_dummy && !foundIn curr k

/-- `Ze::Board::remove_released_keys` (lines 195-221), effect on the state:
each released slot is cleared to the dummy key and its code to `KEY_DUMMY`.
The source handles all three effects (slot, code, `just_released_keys`) in
one loop whose iterations touch only index `i`; the slot/code part is
per-index, so it is expressed pointwise. -/
def remove_released_keys (curr : Fin 6 → Key) (s : SendState) : SendState :=
  { keys_to_send := fun i =>
      if releasedCond curr (s.keys_to_send i) then mkKey0 else s.keys_to_send i,
    codes_to_send := fun i =>
      if releasedCond curr (s.keys_to_send i) then 0 else s.codes_to_send i }

/-- The `just_released_keys` entries produced by
`Ze::Board::remove_released_keys`, in slot order (the source appends them
at increasing `num_keys_released`). -/
def released_of (curr : Fin 6 → Key) (slots : Fin 6 → Key) : List Key :=
  ((List.finRange 6).map slots).filter (releasedCond curr)

/-- The slot scan of `Ze::Board::try_place_key` (lines 244-258): walk the
slots in order, remembering the first free slot, and stop reporting `true`
as soon as a slot `==` the key is seen (the source returns early there). -/
def placeScan (slots : Fin 6 → Key) (k : Key) :
    List (Fin 6) → Option (Fin 6) → Option (Fin 6) × Bool
  | [], low => (low, false)
  | i :: rest, low =>
    if (slots i).is_dummy && low.isNone then placeScan slots k rest (some i)
    else if keyEq (slots i) k then (low, true)
    else placeScan slots k rest low

/-- `Ze::Board::try_place_key` (lines 243-279). Returns the new state and
the C++ return value. The resolved code is stored through a `uint8_t`
local, hence the reduction mod 256. -/
def try_place_key (fn fn2 : Bool) (s : SendState) (k : Key) : SendState × Bool :=
  match placeScan s.keys_to_send k (List.finRange 6) none with
  | (_, true) => (s, false)
  | (none, false) => (s, false)
  | (some idx, false) =>
    ({ keys_to_send := Function.update s.keys_to_send idx k,
       codes_to_send := Function.update s.codes_to_send idx (resolve_code fn fn2 k % 256) },
     true)

/-- The placement loop of `Ze::Board::update_keys_to_send` (lines 225-230):
for each slot of `curr_pressed_keys` in order, place the key if it is not
dummy. -/
def place_keys (fn fn2 : Bool) (curr : Fin 6 → Key) (s : SendState) : SendState :=
  (List.finRange 6).foldl
    (fun st i => if (curr i).is_dummy then st else (try_place_key fn fn2 st (curr i)).1) s

/-- The per-cycle outputs of `Ze::Board::update_keys_to_send`. -/
structure CycleOut where
  state : SendState
  just_released_keys : List Key
  num_keys_released : Nat
  current_media : Int

/-- `Ze::Board::update_keys_to_send` (lines 223-241): phase 1 removes the
released keys, phase 2 places the currently pressed ordinary keys, then the
media code is resolved. -/
def update_keys_to_send (fn fn2 : Bool) (pressed_media : Key) (curr : Fin 6 → Key)
    (s : SendState) : CycleOut :=
  let s1 := remove_released_keys curr s
  { state := place_keys fn fn2 curr s1,
    just_released_keys := released_of curr s.keys_to_send,
    num_keys_released := (released_of curr s.keys_to_send).length,
    current_media := resolve_media fn pressed_media }

/-- The per-cycle input that `Ze::Board::update` feeds to
`update_keys_to_send`: the scanned ordinary-pressed buffer
(`curr_pressed_keys`), the two layer flags and the scanned media key. -/
structure CycleIn where
  curr : Fin 6 → Key
  fn : Bool
  fn2 : Bool
  pressed_media : Key

/-- Iterate `update_keys_to_send` over a sequence of scan cycles. -/
def run_cycles (s : SendState) : List CycleIn → SendState
  | [] => s
  | c :: rest => run_cycles (update_keys_to_send c.fn c.fn2 c.pressed_media c.curr s).state rest

/-- Invariant: no non-dummy key value (by `operator==`) occupies two
distinct slots of `keys_to_send`. -/
abbrev slots_distinct (s : SendState) : Prop :=
  ∀ i j : Fin 6, i ≠ j → (s.keys_to_send i).is_dummy = false →
    keyEq (s.keys_to_send i) (s.keys_to_send j) = false

/-- Invariant: a slot of `keys_to_send` is dummy exactly when the
corresponding `codes_to_send` entry is the neutral code `0`. -/
abbrev codes_match (s : SendState) : Prop :=
  ∀ i : Fin 6, (s.keys_to_send i).is_dummy = true ↔ s.codes_to_send i = 0

/-- A key whose stored codes survive the `uint8_t` truncation of
`try_place_key`: every selectable alternate reduces to a nonzero byte.
Genuine HID key codes (the Teensy `KEY_*`/`KEYPAD_*` constants used in the
layout tables) all have a nonzero low byte. -/
abbrev Key.wf (k : Key) : Prop :=
  (k.is_dummy = false → k.code % 256 ≠ 0) ∧
  (k.has_second = true → k.second % 256 ≠ 0) ∧
  (k.has_third = true → k.third % 256 ≠ 0)

/-- `k` occupies slot `i`: the slot is occupied and holds a key `==` to
`k`. -/
abbrev occupies (s : SendState) (i : Fin 6) (k : Key) : Prop :=
  (s.keys_to_send i).is_dummy = false ∧ keyEq (s.keys_to_send i) k = true

/-- `k` occupies some slot of `keys_to_send` (the dedup check that makes
`try_place_key` a no-op). -/
def residentB (s : SendState) (k : Key) : Bool :=
  (List.finRange 6).any fun j => keyEq (s.keys_to_send j) k

/-- The first-free-slot bookkeeping of the loop in `try_place_key`,
extracted from `placeScan` for reasoning. -/
def firstFree (slots : Fin 6 → Key) : List (Fin 6) → Option (Fin 6) → Option (Fin 6)
  | [], low => low
  | i :: rest, low =>
    if (slots i).is_dummy && low.isNone then firstFree slots rest (some i)
    else firstFree slots rest low

/-- One iteration of the placement loop of `update_keys_to_send`. -/
def place_step (fn fn2 : Bool) (curr : Fin 6 → Key) (st : SendState) (i : Fin 6) : SendState :=
  if (curr i).is_dummy then st else (try_place_key fn fn2 st (curr i)).1

/-- A key with primary 1, second function 2, no third function. -/
def keyB : Key := ⟨1, 2, 0⟩

/-- A key with primary 1, second function 2, third function 3. -/
def keyBoth : Key := ⟨1, 2, 3⟩

/-- A one-key `curr_pressed_keys` buffer holding `keyB` in entry 0. -/
def currB : Fin 6 → Key := fun i => if i = 0 then keyB else mkKey0

/-- State after pressing `keyB` alone from the initial state, no layers. -/
def stateB : SendState :=
  (update_keys_to_send false false mkKey0 currB init_board).state

/-- Transient per-cycle state of `Ze::Board` built up by `scan_keys`. -/
structure ScanState where
  all_pressed_keys : List Key
  tot_num_keys_pressed : Nat
  curr_pressed_keys : Fin 6 → Key
  num_keys_pressed : Nat
  fn_pressed : Bool
  fn2_pressed : Bool
  current_modifier : Int
  pressed_media : Key

/-- The transient state after the resets at the top of `Ze::Board::update`
(lines 130-138, together with `reset_pressed_keys`). -/
def init_scan : ScanState :=
  { all_pressed_keys := [], tot_num_keys_pressed := 0,
    curr_pressed_keys := fun _ => mkKey0, num_keys_pressed := 0,
    fn_pressed := false, fn2_pressed := false,
    current_modifier := 0, pressed_media := mkKey0 }

/-- `Ze::Board::translate_modifier` (lines 62-65): `-1` for nonnegative
arguments, else the `MODIFIER_MAP[-modifier - 1]` lookup. The C++ lookup
has no bounds check (out of range would be undefined behaviour); the
model totalizes it with `getD` default `0`, and claim C10 shows the
in-scan argument always indexes within bounds. -/
def translate_modifier (mm : List Int) (modifier : Int) : Int :=
  if 0 ≤ modifier then -1 else mm.getD (-modifier - 1).toNat 0

/-- One (row, col) position of the `Ze::Board::scan_keys` loop (lines
154-190): skip dummy layout entries and electrically inactive positions;
otherwise append to `all_pressed_keys` and classify through the
`is_fn / is_fn2 / is_modifier / is_media / ordinary` chain. An ordinary
key is stored only while fewer than `MAX_NUM_KEYS` ordinary keys have been
seen, but the counter is always incremented. -/
def scan_step (layout : Nat → Nat → Key) (read : Nat → Nat → Bool) (mm : List Int)
    (st : ScanState) (p : Nat × Nat) : ScanState :=
  let k := layout p.1 p.2
  if !k.is_dummy && read p.1 p.2 then
    let st1 := { st with all_pressed_keys := st.all_pressed_keys ++ [k],
                         tot_num_keys_pressed := st.tot_num_keys_pressed + 1 }
    if k.is_fn then { st1 with fn_pressed := true }
    else if k.is_fn2 then { st1 with fn2_pressed := true }
    else if k.is_modifier then
      { st1 with current_modifier :=
          Int.lor st1.current_modifier (translate_modifier mm k.code) }
    else if k.is_media then { st1 with pressed_media := k }
    else
      if h : st1.num_keys_pressed < 6 then
        { st1 with
          curr_pressed_keys :=
            Function.update st1.curr_pressed_keys ⟨st1.num_keys_pressed, h⟩ k,
          num_keys_pressed := st1.num_keys_pressed + 1 }
      else { st1 with num_keys_pressed := st1.num_keys_pressed + 1 }
  else st

/-- The row-major traversal order of `Ze::Board::scan_keys`: rows `0..4`
outer, columns `0..13` inner. -/
def scanPositions : List (Nat × Nat) :=
  ((List.range 5).map (fun r => (List.range 14).map (fun c => (r, c)))).flatten

/-- `Ze::Board::scan_keys` (lines 147-193), with the electrical sensing
(`digitalRead` of a column while the row is driven low) abstracted as the
boolean function `read`, and the layout table a parameter (the source
reads the fixed global `KEYS`). -/
def scan_keys (layout : Nat → Nat → Key) (read : Nat → Nat → Bool)
    (mm : List Int) : ScanState :=
  scanPositions.foldl (scan_step layout read mm) init_scan

/-- The pressed keys that the classification chain of `scan_keys` routes to
the media branch, in scan order. -/
def mediaScanned (layout : Nat → Nat → Key) (read : Nat → Nat → Bool) :
    List (Nat × Nat) → List Key
  | [] => []
  | p :: ps =>
    let k := layout p.1 p.2
    if !k.is_dummy && read p.1 p.2 &&
        (!k.is_fn && !k.is_fn2 && !k.is_modifier && k.is_media) then
      k :: mediaScanned layout read ps
    else mediaScanned layout read ps

/-- The pressed keys that the classification chain of `scan_keys` routes to
the ordinary branch, in scan order. -/
def ordScanned (layout : Nat → Nat → Key) (read : Nat → Nat → Bool) :
    List (Nat × Nat) → List Key
  | [] => []
  | p :: ps =>
    let k := layout p.1 p.2
    if !k.is_dummy && read p.1 p.2 &&
        (!k.is_fn && !k.is_fn2 && !k.is_modifier && !k.is_media) then
      k :: ordScanned layout read ps
    else ordScanned layout read ps

/-- An all-pressed hardware read, for concrete scan scenarios. -/
def readAll : Nat → Nat → Bool := fun _ _ => true

/-- A layout with two media keys at (0,0) and (0,1), for the media
last-write-wins scenario. -/
def layoutM : Nat → Nat → Key := fun r c =>
  if r = 0 ∧ c = 0 then mkKey1 0xE401
  else if r = 0 ∧ c = 1 then mkKey1 0xE402
  else mkKey0

/-- A layout whose first row holds seven distinct ordinary keys, for the
capacity-ceiling scenario. -/
def layout7 : Nat → Nat → Key := fun r c =>
  if r = 0 ∧ c < 7 then mkKey1 ((c : Int) + 1) else mkKey0

/-- Every occupied slot holds a key that is present in `curr` — the
postcondition of the release phase, preserved by placement. -/
abbrev occupied_sub (curr : Fin 6 → Key) (s : SendState) : Prop :=
  ∀ i : Fin 6, (s.keys_to_send i).is_dummy = false →
    foundIn curr (s.keys_to_send i) = true

/-- Number of occupied slots. -/
def occCount (s : SendState) : Nat :=
  (Finset.univ.filter (fun i : Fin 6 => (s.keys_to_send i).is_dummy = false)).card

/-- The names of the keycode constants consumed from the external Teensy
core (`Arduino.h`), which is not part of this repository. They are USB HID
key codes; the repository reserves negative codes for its own modifier
identities, so these are modelled as arbitrary nonnegative values
(a function `ExtName → Nat`). -/
inductive ExtName
  | KEY_BACKSPACE | KEY_EQUAL | KEY_F12 | KEY_MINUS | KEY_F11 | KEY_0 | KEY_F10
  | KEY_9 | KEY_F9 | KEY_8 | KEY_F8 | KEY_7 | KEY_F7 | KEY_6 | KEY_F6
  | KEY_5 | KEY_F5 | KEY_4 | KEY_F4 | KEY_3 | KEY_F3 | KEY_2 | KEY_F2
  | KEY_1 | KEY_F1 | KEY_ESC | KEY_TILDE
  | KEY_RIGHT_BRACE | KEY_LEFT_BRACE | KEY_P | KEY_O | KEY_I | KEY_U | KEY_Y
  | KEY_T | KEY_R | KEY_E | KEYPAD_9 | KEY_W | KEYPAD_8 | KEY_Q | KEYPAD_7
  | KEY_TAB
  | KEY_ENTER | KEY_BACKSLASH | KEY_QUOTE | KEY_SEMICOLON | KEY_L | KEY_UP
  | KEY_K | KEY_J | KEY_H | KEY_G | KEY_F | KEY_D | KEYPAD_6 | KEY_S
  | KEYPAD_5 | KEY_A | KEYPAD_4 | KEY_CAPS_LOCK
  | KEY_SLASH | KEY_RIGHT | KEY_PERIOD | KEY_DOWN | KEY_COMMA | KEY_LEFT
  | KEY_M | KEY_N | KEY_B | KEY_V | KEY_C | KEYPAD_3 | KEY_X | KEYPAD_2
  | KEY_Z | KEYPAD_1 | KEY_NON_US_BS | KEYPAD_0 | KEY_SPACE
  | MODIFIERKEY_LEFT_SHIFT | MODIFIERKEY_CTRL | MODIFIERKEY_LEFT_ALT
  | MODIFIERKEY_RIGHT_ALT | MODIFIERKEY_GUI | MODIFIERKEY_RIGHT_SHIFT
deriving DecidableEq

/-- The integer value of an external keycode constant (nonnegative by
construction, as HID codes are). -/
def eInt (ext : ExtName → Nat) (e : ExtName) : Int := (ext e : Int)

/-- `Ze::Board::MODIFIER_MAP` from `keyboard.h` (lines 131-140). -/
def MODIFIER_MAP (ext : ExtName → Nat) : List Int :=
  [eInt ext .MODIFIERKEY_LEFT_SHIFT, eInt ext .MODIFIERKEY_CTRL,
   eInt ext .MODIFIERKEY_LEFT_ALT, eInt ext .MODIFIERKEY_RIGHT_ALT,
   eInt ext .MODIFIERKEY_GUI, eInt ext .MODIFIERKEY_RIGHT_SHIFT]

/-- Row 0 of the `KEYS` layout table (`keyboard.h`). -/
def KEYS_row0 (ext : ExtName → Nat) : Nat → Key
  | 0 => mkKey1 (eInt ext .KEY_BACKSPACE)
  | 1 => mkKey2 (eInt ext .KEY_EQUAL) (eInt ext .KEY_F12)
  | 2 => mkKey2 (eInt ext .KEY_MINUS) (eInt ext .KEY_F11)
  | 3 => mkKey2 (eInt ext .KEY_0) (eInt ext .KEY_F10)
  | 4 => mkKey2 (eInt ext .KEY_9) (eInt ext .KEY_F9)
  | 5 => mkKey2 (eInt ext .KEY_8) (eInt ext .KEY_F8)
  | 6 => mkKey2 (eInt ext .KEY_7) (eInt ext .KEY_F7)
  | 7 => mkKey2 (eInt ext .KEY_6) (eInt ext .KEY_F6)
  | 8 => mkKey2 (eInt ext .KEY_5) (eInt ext .KEY_F5)
  | 9 => mkKey2 (eInt ext .KEY_4) (eInt ext .KEY_F4)
  | 10 => mkKey2 (eInt ext .KEY_3) (eInt ext .KEY_F3)
  | 11 => mkKey2 (eInt ext .KEY_2) (eInt ext .KEY_F2)
  | 12 => mkKey2 (eInt ext .KEY_1) (eInt ext .KEY_F1)
  | 13 => mkKey2 (eInt ext .KEY_ESC) (eInt ext .KEY_TILDE)
  | _ => mkKey0

/-- Row 1 of the `KEYS` layout table. -/
def KEYS_row1 (ext : ExtName → Nat) : Nat → Key
  | 0 => mkKey0
  | 1 => mkKey1 (eInt ext .KEY_RIGHT_BRACE)
  | 2 => mkKey1 (eInt ext .KEY_LEFT_BRACE)
  | 3 => mkKey1 (eInt ext .KEY_P)
  | 4 => mkKey1 (eInt ext .KEY_O)
  | 5 => mkKey1 (eInt ext .KEY_I)
  | 6 => mkKey1 (eInt ext .KEY_U)
  | 7 => mkKey1 (eInt ext .KEY_Y)
  | 8 => mkKey1 (eInt ext .KEY_T)
  | 9 => mkKey1 (eInt ext .KEY_R)
  | 10 => mkKey3 (eInt ext .KEY_E) KEY_DUMMY (eInt ext .KEYPAD_9)
  | 11 => mkKey3 (eInt ext .KEY_W) KEY_DUMMY (eInt ext .KEYPAD_8)
  | 12 => mkKey3 (eInt ext .KEY_Q) KEY_DUMMY (eInt ext .KEYPAD_7)
  | 13 => mkKey1 (eInt ext .KEY_TAB)
  | _ => mkKey0

/-- Row 2 of the `KEYS` layout table. -/
def KEYS_row2 (ext : ExtName → Nat) : Nat → Key
  | 0 => mkKey1 (eInt ext .KEY_ENTER)
  | 1 => mkKey1 (eInt ext .KEY_BACKSLASH)
  | 2 => mkKey1 (eInt ext .KEY_QUOTE)
  | 3 => mkKey1 (eInt ext .KEY_SEMICOLON)
  | 4 => mkKey2 (eInt ext .KEY_L) (eInt ext .KEY_UP)
  | 5 => mkKey1 (eInt ext .KEY_K)
  | 6 => mkKey1 (eInt ext .KEY_J)
  | 7 => mkKey1 (eInt ext .KEY_H)
  | 8 => mkKey1 (eInt ext .KEY_G)
  | 9 => mkKey1 (eInt ext .KEY_F)
  | 10 => mkKey3 (eInt ext .KEY_D) KEY_DUMMY (eInt ext .KEYPAD_6)
  | 11 => mkKey3 (eInt ext .KEY_S) KEY_DUMMY (eInt ext .KEYPAD_5)
  | 12 => mkKey3 (eInt ext .KEY_A) KEY_DUMMY (eInt ext .KEYPAD_4)
  | 13 => mkKey1 (eInt ext .KEY_CAPS_LOCK)
  | _ => mkKey0

/-- Row 3 of the `KEYS` layout table. -/
def KEYS_row3 (ext : ExtName → Nat) : Nat → Key
  | 0 => mkKey1 KEY_RSHIFT
  | 1 => mkKey0
  | 2 => mkKey2 (eInt ext .KEY_SLASH) (eInt ext .KEY_RIGHT)
  | 3 => mkKey2 (eInt ext .KEY_PERIOD) (eInt ext .KEY_DOWN)
  | 4 => mkKey2 (eInt ext .KEY_COMMA) (eInt ext .KEY_LEFT)
  | 5 => mkKey1 (eInt ext .KEY_M)
  | 6 => mkKey1 (eInt ext .KEY_N)
  | 7 => mkKey1 (eInt ext .KEY_B)
  | 8 => mkKey1 (eInt ext .KEY_V)
  | 9 => mkKey3 (eInt ext .KEY_C) KEY_DUMMY (eInt ext .KEYPAD_3)
  | 10 => mkKey3 (eInt ext .KEY_X) KEY_DUMMY (eInt ext .KEYPAD_2)
  | 11 => mkKey3 (eInt ext .KEY_Z) KEY_DUMMY (eInt ext .KEYPAD_1)
  | 12 => mkKey3 (eInt ext .KEY_NON_US_BS) KEY_DUMMY (eInt ext .KEYPAD_0)
  | 13 => mkKey1 KEY_LSHIFT
  | _ => mkKey0

/-- Row 4 of the `KEYS` layout table. -/
def KEYS_row4 (ext : ExtName → Nat) : Nat → Key
  | 0 => mkKey1 KEY_CTRL
  | 1 => mkKey1 KEY_FN
  | 2 => mkKey1 KEY_FN2
  | 3 => mkKey1 KEY_ALTGR
  | 4 => mkKey0
  | 5 => mkKey0
  | 6 => mkKey0
  | 7 => mkKey1 (eInt ext .KEY_SPACE)
  | 8 => mkKey0
  | 9 => mkKey0
  | 10 => mkKey0
  | 11 => mkKey1 KEY_ALT
  | 12 => mkKey1 KEY_SUPER
  | 13 => mkKey1 KEY_CTRL
  | _ => mkKey0

/-- The `KEYS` layout table of `keyboard.h` (lines 246-352). -/
def KEYS (ext : ExtName → Nat) (r c : Nat) : Key :=
  match r with
  | 0 => KEYS_row0 ext c
  | 1 => KEYS_row1 ext c
  | 2 => KEYS_row2 ext c
  | 3 => KEYS_row3 ext c
  | 4 => KEYS_row4 ext c
  | _ => mkKey0

/-- Row 0 of the `KEYS_SPECIAL` layout table (primary and secondary of the
function-key row are swapped relative to `KEYS`). -/
def KEYS_SPECIAL_row0 (ext : ExtName → Nat) : Nat → Key
  | 0 => mkKey1 (eInt ext .KEY_BACKSPACE)
  | 1 => mkKey2 (eInt ext .KEY_F12) (eInt ext .KEY_EQUAL)
  | 2 => mkKey2 (eInt ext .KEY_F11) (eInt ext .KEY_MINUS)
  | 3 => mkKey2 (eInt ext .KEY_F10) (eInt ext .KEY_0)
  | 4 => mkKey2 (eInt ext .KEY_F9) (eInt ext .KEY_9)
  | 5 => mkKey2 (eInt ext .KEY_F8) (eInt ext .KEY_8)
  | 6 => mkKey2 (eInt ext .KEY_F7) (eInt ext .KEY_7)
  | 7 => mkKey2 (eInt ext .KEY_F6) (eInt ext .KEY_6)
  | 8 => mkKey2 (eInt ext .KEY_F5) (eInt ext .KEY_5)
  | 9 => mkKey2 (eInt ext .KEY_F4) (eInt ext .KEY_4)
  | 10 => mkKey2 (eInt ext .KEY_F3) (eInt ext .KEY_3)
  | 11 => mkKey2 (eInt ext .KEY_F2) (eInt ext .KEY_2)
  | 12 => mkKey2 (eInt ext .KEY_F1) (eInt ext .KEY_1)
  | 13 => mkKey2 (eInt ext .KEY_ESC) (eInt ext .KEY_TILDE)
  | _ => mkKey0

/-- The `KEYS_SPECIAL` layout table of `keyboard.h` (lines 355-461); its
rows 1-4 repeat those of `KEYS` verbatim in the source. -/
def KEYS_SPECIAL (ext : ExtName → Nat) (r c : Nat) : Key :=
  match r with
  | 0 => KEYS_SPECIAL_row0 ext c
  | 1 => KEYS_row1 ext c
  | 2 => KEYS_row2 ext c
  | 3 => KEYS_row3 ext c
  | 4 => KEYS_row4 ext c
  | _ => mkKey0

/-- The property claim C10 needs of one layout entry: if the scan's
classification chain (`is_fn`, then `is_fn2`, then `is_modifier`) routes
the key to `translate_modifier`, its primary code lies in `-6 .. -1`. -/
def mod_range_ok (k : Key) : Prop :=
  k.is_fn = false → k.is_fn2 = false → k.is_modifier = true →
    (-6 ≤ k.code ∧ k.code ≤ -1)

/-- A concrete assignment of the external keycode constants, for witnesses. -/
def extOne : ExtName → Nat := fun _ => 1

theorem keyEq_iff (a b : Key) : keyEq a b = true ↔ (a.code = b.code ∧ a.second = b.second) := by
  simp [keyEq]

theorem keyEq_refl (a : Key) : keyEq a a = true := by
  simp [keyEq]

theorem keyEq_symm {a b : Key} (h : keyEq a b = true) : keyEq b a = true := by
  rw [keyEq_iff] at h ⊢
  exact ⟨h.1.symm, h.2.symm⟩

theorem keyEq_trans {a b c : Key} (h1 : keyEq a b = true) (h2 : keyEq b c = true) :
    keyEq a c = true := by
  rw [keyEq_iff] at h1 h2 ⊢
  exact ⟨h1.1.trans h2.1, h1.2.trans h2.2⟩

theorem keyEq_dummy_congr {a b : Key} (h : keyEq a b = true) :
    a.is_dummy = b.is_dummy := by
  rw [keyEq_iff] at h
  simp [Key.is_dummy, h.1]

theorem keyEq_false_of_trans {a b c : Key} (h1 : keyEq a b = true)
    (h2 : keyEq a c = false) : keyEq b c = false := by
  cases h3 : keyEq b c
  · rfl
  · exact absurd (keyEq_trans h1 h3) (by simp [h2])

/-- A non-dummy key is never `==` to a dummy key (their primary codes differ). -/
theorem keyEq_dummy_false {a b : Key} (ha : a.is_dummy = false) (hb : b.is_dummy = true) :
    keyEq a b = false := by
  simp only [Key.is_dummy, decide_eq_false_iff_not, decide_eq_true_eq] at ha hb
  simp [keyEq, hb ▸ ha]

theorem residentB_iff {s : SendState} {k : Key} :
    residentB s k = true ↔ ∃ j : Fin 6, keyEq (s.keys_to_send j) k = true := by
  simp [residentB, List.any_eq_true, List.mem_finRange]

theorem foundIn_iff {curr : Fin 6 → Key} {k : Key} :
    foundIn curr k = true ↔ ∃ j : Fin 6, keyEq k (curr j) = true := by
  simp [foundIn, List.any_eq_true, List.mem_finRange]

theorem foundIn_congr {curr : Fin 6 → Key} {a b : Key} (h : keyEq a b = true) :
    foundIn curr a = foundIn curr b := by
  cases hb : foundIn curr b
  · cases ha : foundIn curr a
    · rfl
    · rw [foundIn_iff] at ha
      obtain ⟨j, hj⟩ := ha
      have : foundIn curr b = true := foundIn_iff.2 ⟨j, keyEq_trans (keyEq_symm h) hj⟩
      rw [this] at hb
      exact hb
  · rw [foundIn_iff] at hb
    obtain ⟨j, hj⟩ := hb
    exact foundIn_iff.2 ⟨j, keyEq_trans h hj⟩

theorem placeScan_found {slots : Fin 6 → Key} {k : Key} (hk : k.is_dummy = false) :
    ∀ (l : List (Fin 6)) (low : Option (Fin 6)),
      (∃ i ∈ l, keyEq (slots i) k = true) → (placeScan slots k l low).2 = true := by
  intro l
  induction l with
  | nil => intro low h; simp at h
  | cons i rest ih =>
    intro low h
    obtain ⟨w, hw, hweq⟩ := h
    by_cases hi : keyEq (slots i) k = true
    · have hnd : (slots i).is_dummy = false := by
        rw [keyEq_dummy_congr hi]; exact hk
      simp [placeScan, hnd, hi]
    · have hwrest : w ∈ rest := by
        rcases List.mem_cons.1 hw with h1 | h1
        · exact absurd (h1 ▸ hweq) hi
        · exact h1
      simp only [placeScan]
      by_cases hd : ((slots i).is_dummy && low.isNone) = true
      · rw [if_pos hd]; exact ih (some i) ⟨w, hwrest, hweq⟩
      · rw [if_neg hd, if_neg (by simp [hi])]
        exact ih low ⟨w, hwrest, hweq⟩

theorem placeScan_not_found {slots : Fin 6 → Key} {k : Key} :
    ∀ (l : List (Fin 6)) (low : Option (Fin 6)),
      (∀ i ∈ l, keyEq (slots i) k = false) →
      placeScan slots k l low = (firstFree slots l low, false) := by
  intro l
  induction l with
  | nil => intro low _; rfl
  | cons i rest ih =>
    intro low h
    have hi : keyEq (slots i) k = false := h i (List.mem_cons_self i rest)
    have hrest : ∀ j ∈ rest, keyEq (slots j) k = false :=
      fun j hj => h j (List.mem_cons_of_mem i hj)
    simp only [placeScan, firstFree]
    by_cases hd : ((slots i).is_dummy && low.isNone) = true
    · rw [if_pos hd, if_pos hd]; exact ih (some i) hrest
    · rw [if_neg hd, if_neg hd, if_neg (by simp [hi])]
      exact ih low hrest

theorem firstFree_mem {slots : Fin 6 → Key} :
    ∀ (l : List (Fin 6)) (low : Option (Fin 6)) (idx : Fin 6),
      firstFree slots l low = some idx →
      low = some idx ∨ ((slots idx).is_dummy = true ∧ idx ∈ l) := by
  intro l
  induction l with
  | nil => intro low idx h; exact Or.inl h
  | cons i rest ih =>
    intro low idx h
    simp only [firstFree] at h
    by_cases hd : ((slots i).is_dummy && low.isNone) = true
    · rw [if_pos hd] at h
      rcases ih (some i) idx h with h1 | h1
      · have : i = idx := by injection h1
        subst this
        exact Or.inr ⟨(Bool.and_eq_true_iff.1 hd).1, List.mem_cons_self _ _⟩
      · exact Or.inr ⟨h1.1, List.mem_cons_of_mem i h1.2⟩
    · rw [if_neg hd] at h
      rcases ih low idx h with h1 | h1
      · exact Or.inl h1
      · exact Or.inr ⟨h1.1, List.mem_cons_of_mem i h1.2⟩

theorem firstFree_eq_none {slots : Fin 6 → Key} :
    ∀ (l : List (Fin 6)) (low : Option (Fin 6)),
      firstFree slots l low = none →
      low = none ∧ ∀ i ∈ l, (slots i).is_dummy = false := by
  intro l
  induction l with
  | nil => intro low h; exact ⟨h, by simp⟩
  | cons i rest ih =>
    intro low h
    simp only [firstFree] at h
    by_cases hd : ((slots i).is_dummy && low.isNone) = true
    · rw [if_pos hd] at h
      exact absurd (ih (some i) h).1 (by simp)
    · rw [if_neg hd] at h
      obtain ⟨hlow, hrest⟩ := ih low h
      subst hlow
      have : (slots i).is_dummy = false := by
        by_cases hsi : (slots i).is_dummy = true
        · exact absurd (by simp [hsi]) hd
        · simpa using hsi
      refine ⟨rfl, fun j hj => ?_⟩
      rcases List.mem_cons.1 hj with h1 | h1
      · exact h1 ▸ this
      · exact hrest j h1

/-- If the key already occupies a slot, `try_place_key` is a no-op that
returns `false` (the dedup early return of the source). -/
theorem try_place_of_resident {fn fn2 : Bool} {s : SendState} {k : Key}
    (hk : k.is_dummy = false) (hres : residentB s k = true) :
    try_place_key fn fn2 s k = (s, false) := by
  obtain ⟨j, hj⟩ := residentB_iff.1 hres
  have hfound := placeScan_found hk (List.finRange 6) none
    ⟨j, List.mem_finRange j, hj⟩
  unfold try_place_key
  rcases hscan : placeScan s.keys_to_send k (List.finRange 6) none with ⟨low, found⟩
  rw [hscan] at hfound
  simp only at hfound
  subst hfound
  cases low
  · rfl
  · rfl

/-- Case analysis for `try_place_key`: either it leaves the state unchanged
and returns `false`, or the key was not resident and it writes the key and
its resolved code (truncated to a byte) into a previously free slot. -/
theorem try_place_cases (fn fn2 : Bool) (s : SendState) (k : Key) (hk : k.is_dummy = false) :
    try_place_key fn fn2 s k = (s, false) ∨
    (∃ idx : Fin 6, (s.keys_to_send idx).is_dummy = true ∧ residentB s k = false ∧
      try_place_key fn fn2 s k =
        ({ keys_to_send := Function.update s.keys_to_send idx k,
           codes_to_send :=
             Function.update s.codes_to_send idx (resolve_code fn fn2 k % 256) }, true)) := by
  by_cases hres : residentB s k = true
  · exact Or.inl (try_place_of_resident hk hres)
  · have hres' : residentB s k = false := by simpa using hres
    have hall : ∀ i ∈ List.finRange 6, keyEq (s.keys_to_send i) k = false := by
      intro i _
      by_cases h : keyEq (s.keys_to_send i) k = true
      · exact absurd (residentB_iff.2 ⟨i, h⟩) (by simp [hres'])
      · simpa using h
    have hscan := placeScan_not_found
      (List.finRange 6) none hall
    unfold try_place_key
    rw [hscan]
    rcases hff : firstFree s.keys_to_send (List.finRange 6) none with _ | idx
    · exact Or.inl rfl
    · rcases firstFree_mem (List.finRange 6) none idx hff with h1 | h1
      · exact absurd h1 (by simp)
      · exact Or.inr ⟨idx, h1.1, hres', rfl⟩

/-- An occupied slot is never touched by `try_place_key`. -/
theorem try_place_preserves_occupied {fn fn2 : Bool} {s : SendState} {k : Key}
    (hk : k.is_dummy = false) {i : Fin 6} (hi : (s.keys_to_send i).is_dummy = false) :
    (try_place_key fn fn2 s k).1.keys_to_send i = s.keys_to_send i ∧
    (try_place_key fn fn2 s k).1.codes_to_send i = s.codes_to_send i := by
  rcases try_place_cases fn fn2 s k hk with h | ⟨idx, hdum, _, h⟩
  · rw [h]; exact ⟨rfl, rfl⟩
  · have hne : i ≠ idx := by
      intro he; rw [he, hdum] at hi; cases hi
    have hkeys : (try_place_key fn fn2 s k).1.keys_to_send =
        Function.update s.keys_to_send idx k := by rw [h]
    have hcodes : (try_place_key fn fn2 s k).1.codes_to_send =
        Function.update s.codes_to_send idx (resolve_code fn fn2 k % 256) := by rw [h]
    rw [hkeys, hcodes]
    exact ⟨Function.update_noteq hne _ _, Function.update_noteq hne _ _⟩

/-- Every slot after `try_place_key` holds either its old key or the new
key `k`. -/
theorem try_place_slot_old_or_new {fn fn2 : Bool} {s : SendState} {k : Key}
    (hk : k.is_dummy = false) (i : Fin 6) :
    (try_place_key fn fn2 s k).1.keys_to_send i = s.keys_to_send i ∨
    (try_place_key fn fn2 s k).1.keys_to_send i = k := by
  rcases try_place_cases fn fn2 s k hk with h | ⟨idx, _, _, h⟩
  · rw [h]; exact Or.inl rfl
  · have hkeys : (try_place_key fn fn2 s k).1.keys_to_send =
        Function.update s.keys_to_send idx k := by rw [h]
    rw [hkeys]
    by_cases he : i = idx
    · subst he
      exact Or.inr (Function.update_same _ _ _)
    · exact Or.inl (Function.update_noteq he _ _)

/-- A resident (non-dummy) key stays resident through `try_place_key`. -/
theorem try_place_mono_resident {fn fn2 : Bool} {s : SendState} {k k2 : Key}
    (hk : k.is_dummy = false) (hk2 : k2.is_dummy = false) (h : residentB s k2 = true) :
    residentB (try_place_key fn fn2 s k).1 k2 = true := by
  obtain ⟨j, hj⟩ := residentB_iff.1 h
  have hjd : (s.keys_to_send j).is_dummy = false := by
    rw [keyEq_dummy_congr hj]; exact hk2
  have hpres := (@try_place_preserves_occupied fn fn2 s k hk j hjd).1
  exact residentB_iff.2 ⟨j, hpres ▸ hj⟩

/-- `try_place_key` preserves slot distinctness. -/
theorem try_place_distinct {fn fn2 : Bool} {s : SendState} {k : Key}
    (hs : slots_distinct s) (hk : k.is_dummy = false) :
    slots_distinct (try_place_key fn fn2 s k).1 := by
  rcases try_place_cases fn fn2 s k hk with h | ⟨idx, hdum, hres, h⟩
  · rw [h]; exact hs
  · have hkeys : (try_place_key fn fn2 s k).1.keys_to_send =
        Function.update s.keys_to_send idx k := by rw [h]
    intro i j hij hnd
    rw [hkeys] at hnd ⊢
    have hresall : ∀ m : Fin 6, keyEq (s.keys_to_send m) k = false := by
      intro m
      by_cases hm : keyEq (s.keys_to_send m) k = true
      · exact absurd (residentB_iff.2 ⟨m, hm⟩) (by simp [hres])
      · simpa using hm
    by_cases hi : i = idx
    · subst hi
      rw [Function.update_same] at hnd ⊢
      rw [Function.update_noteq (fun he => hij he.symm) _ _]
      by_cases hjeq : keyEq k (s.keys_to_send j) = true
      · exact absurd (keyEq_symm hjeq) (by simp [hresall j])
      · simpa using hjeq
    · rw [Function.update_noteq hi _ _] at hnd ⊢
      by_cases hj : j = idx
      · subst hj
        rw [Function.update_same]
        exact hresall i
      · rw [Function.update_noteq hj _ _]
        exact hs i j hij hnd

/-- `try_place_key` preserves the slot/code matching invariant, provided the
placed key's codes survive byte truncation. -/
theorem try_place_codes_match {fn fn2 : Bool} {s : SendState} {k : Key}
    (hs : codes_match s) (hk : k.is_dummy = false) (hwf : k.wf) :
    codes_match (try_place_key fn fn2 s k).1 := by
  rcases try_place_cases fn fn2 s k hk with h | ⟨idx, hdum, _, h⟩
  · rw [h]; exact hs
  · have hkeys : (try_place_key fn fn2 s k).1.keys_to_send =
        Function.update s.keys_to_send idx k := by rw [h]
    have hcodes : (try_place_key fn fn2 s k).1.codes_to_send =
        Function.update s.codes_to_send idx (resolve_code fn fn2 k % 256) := by rw [h]
    intro i
    rw [hkeys, hcodes]
    by_cases hi : i = idx
    · subst hi
      rw [Function.update_same, Function.update_same]
      constructor
      · intro hd; rw [hd] at hk; cases hk
      · intro hc
        exfalso
        unfold resolve_code at hc
        by_cases h2 : (k.has_second && fn) = true
        · rw [if_pos h2] at hc
          exact hwf.2.1 (Bool.and_eq_true_iff.1 h2).1 hc
        · rw [if_neg h2] at hc
          by_cases h3 : (k.has_third && fn2) = true
          · rw [if_pos h3] at hc
            exact hwf.2.2 (Bool.and_eq_true_iff.1 h3).1 hc
          · rw [if_neg h3] at hc
            exact hwf.1 hk hc
    · rw [Function.update_noteq hi _ _, Function.update_noteq hi _ _]
      exact hs i

theorem place_keys_eq_foldl (fn fn2 : Bool) (curr : Fin 6 → Key) (s : SendState) :
    place_keys fn fn2 curr s = (List.finRange 6).foldl (place_step fn fn2 curr) s := rfl

theorem foldl_place_preserves_occupied (fn fn2 : Bool) (curr : Fin 6 → Key) :
    ∀ (l : List (Fin 6)) (s : SendState) (i : Fin 6),
      (s.keys_to_send i).is_dummy = false →
      (l.foldl (place_step fn fn2 curr) s).keys_to_send i = s.keys_to_send i ∧
      (l.foldl (place_step fn fn2 curr) s).codes_to_send i = s.codes_to_send i := by
  intro l
  induction l with
  | nil => intro s i hi; exact ⟨rfl, rfl⟩
  | cons j rest ih =>
    intro s i hi
    simp only [List.foldl_cons]
    by_cases hj : (curr j).is_dummy = true
    · rw [show place_step fn fn2 curr s j = s by simp [place_step, hj]]
      exact ih s i hi
    · have hj' : (curr j).is_dummy = false := by simpa using hj
      have hstep : place_step fn fn2 curr s j = (try_place_key fn fn2 s (curr j)).1 := by
        simp [place_step, hj']
      rw [hstep]
      obtain ⟨h1, h2⟩ := @try_place_preserves_occupied fn fn2 s (curr j) hj' i hi
      have hid : ((try_place_key fn fn2 s (curr j)).1.keys_to_send i).is_dummy = false := by
        rw [h1]; exact hi
      obtain ⟨h3, h4⟩ := ih (try_place_key fn fn2 s (curr j)).1 i hid
      exact ⟨h3.trans h1, h4.trans h2⟩

theorem foldl_place_mono_resident (fn fn2 : Bool) (curr : Fin 6 → Key) :
    ∀ (l : List (Fin 6)) (s : SendState) (k2 : Key),
      k2.is_dummy = false → residentB s k2 = true →
      residentB (l.foldl (place_step fn fn2 curr) s) k2 = true := by
  intro l
  induction l with
  | nil => intro s k2 _ h; exact h
  | cons j rest ih =>
    intro s k2 hk2 h
    simp only [List.foldl_cons]
    refine ih _ k2 hk2 ?_
    by_cases hj : (curr j).is_dummy = true
    · rw [show place_step fn fn2 curr s j = s by simp [place_step, hj]]
      exact h
    · have hj' : (curr j).is_dummy = false := by simpa using hj
      rw [show place_step fn fn2 curr s j = (try_place_key fn fn2 s (curr j)).1 by
        simp [place_step, hj']]
      exact try_place_mono_resident hj' hk2 h

theorem foldl_place_distinct (fn fn2 : Bool) (curr : Fin 6 → Key) :
    ∀ (l : List (Fin 6)) (s : SendState), slots_distinct s →
      slots_distinct (l.foldl (place_step fn fn2 curr) s) := by
  intro l
  induction l with
  | nil => intro s h; exact h
  | cons j rest ih =>
    intro s h
    simp only [List.foldl_cons]
    refine ih _ ?_
    by_cases hj : (curr j).is_dummy = true
    · rw [show place_step fn fn2 curr s j = s by simp [place_step, hj]]
      exact h
    · have hj' : (curr j).is_dummy = false := by simpa using hj
      rw [show place_step fn fn2 curr s j = (try_place_key fn fn2 s (curr j)).1 by
        simp [place_step, hj']]
      exact try_place_distinct h hj'

theorem foldl_place_codes_match (fn fn2 : Bool) (curr : Fin 6 → Key)
    (hwf : ∀ i : Fin 6, (curr i).wf) :
    ∀ (l : List (Fin 6)) (s : SendState), codes_match s →
      codes_match (l.foldl (place_step fn fn2 curr) s) := by
  intro l
  induction l with
  | nil => intro s h; exact h
  | cons j rest ih =>
    intro s h
    simp only [List.foldl_cons]
    refine ih _ ?_
    by_cases hj : (curr j).is_dummy = true
    · rw [show place_step fn fn2 curr s j = s by simp [place_step, hj]]
      exact h
    · have hj' : (curr j).is_dummy = false := by simpa using hj
      rw [show place_step fn fn2 curr s j = (try_place_key fn fn2 s (curr j)).1 by
        simp [place_step, hj']]
      exact try_place_codes_match h hj' (hwf j)

theorem foldl_place_slot_old_or_new (fn fn2 : Bool) (curr : Fin 6 → Key) :
    ∀ (l : List (Fin 6)) (s : SendState) (i : Fin 6),
      (l.foldl (place_step fn fn2 curr) s).keys_to_send i = s.keys_to_send i ∨
      ∃ j ∈ l, (l.foldl (place_step fn fn2 curr) s).keys_to_send i = curr j := by
  intro l
  induction l with
  | nil => intro s i; exact Or.inl rfl
  | cons j rest ih =>
    intro s i
    simp only [List.foldl_cons]
    by_cases hj : (curr j).is_dummy = true
    · rw [show place_step fn fn2 curr s j = s by simp [place_step, hj]]
      rcases ih s i with h | ⟨w, hw, hweq⟩
      · exact Or.inl h
      · exact Or.inr ⟨w, List.mem_cons_of_mem j hw, hweq⟩
    · have hj' : (curr j).is_dummy = false := by simpa using hj
      rw [show place_step fn fn2 curr s j = (try_place_key fn fn2 s (curr j)).1 by
        simp [place_step, hj']]
      rcases ih (try_place_key fn fn2 s (curr j)).1 i with h | ⟨w, hw, hweq⟩
      · rcases @try_place_slot_old_or_new fn fn2 s (curr j) hj' i with h2 | h2
        · exact Or.inl (h.trans h2)
        · exact Or.inr ⟨j, List.mem_cons_self _ _, h.trans h2⟩
      · exact Or.inr ⟨w, List.mem_cons_of_mem j hw, hweq⟩

theorem remove_keys_eq (curr : Fin 6 → Key) (s : SendState) (i : Fin 6) :
    (remove_released_keys curr s).keys_to_send i =
      if releasedCond curr (s.keys_to_send i) then mkKey0 else s.keys_to_send i := rfl

theorem remove_codes_eq (curr : Fin 6 → Key) (s : SendState) (i : Fin 6) :
    (remove_released_keys curr s).codes_to_send i =
      if releasedCond curr (s.keys_to_send i) then 0 else s.codes_to_send i := rfl

/-- A slot whose key is still in `curr_pressed_keys` survives the release
phase untouched. -/
theorem remove_keeps_found {curr : Fin 6 → Key} {s : SendState} {i : Fin 6}
    (h : foundIn curr (s.keys_to_send i) = true) :
    (remove_released_keys curr s).keys_to_send i = s.keys_to_send i ∧
    (remove_released_keys curr s).codes_to_send i = s.codes_to_send i := by
  have hrc : releasedCond curr (s.keys_to_send i) = false := by
    simp [releasedCond, h]
  rw [remove_keys_eq, remove_codes_eq, hrc]
  simp

/-- A slot whose key is occupied but no longer pressed is cleared by the
release phase: the slot to the dummy key, the code to `KEY_DUMMY = 0`. -/
theorem remove_clears_released {curr : Fin 6 → Key} {s : SendState} {i : Fin 6}
    (hnd : (s.keys_to_send i).is_dummy = false)
    (h : foundIn curr (s.keys_to_send i) = false) :
    (remove_released_keys curr s).keys_to_send i = mkKey0 ∧
    (remove_released_keys curr s).codes_to_send i = 0 := by
  have hrc : releasedCond curr (s.keys_to_send i) = true := by
    simp [releasedCond, h, hnd]
  rw [remove_keys_eq, remove_codes_eq, hrc]
  simp

/-- Every occupied slot after the release phase held the same key before it
and that key is still pressed. -/
theorem remove_occupied_found {curr : Fin 6 → Key} {s : SendState} {i : Fin 6}
    (h : ((remove_released_keys curr s).keys_to_send i).is_dummy = false) :
    (remove_released_keys curr s).keys_to_send i = s.keys_to_send i ∧
    foundIn curr ((remove_released_keys curr s).keys_to_send i) = true := by
  by_cases hc : releasedCond curr (s.keys_to_send i) = true
  · exfalso
    rw [remove_keys_eq, hc] at h
    simp [mkKey0, Key.is_dummy, KEY_DUMMY] at h
  · have hc' : releasedCond curr (s.keys_to_send i) = false := by simpa using hc
    have hkeep : (remove_released_keys curr s).keys_to_send i = s.keys_to_send i := by
      rw [remove_keys_eq, hc']; simp
    rw [hkeep] at h ⊢
    refine ⟨rfl, ?_⟩
    simp only [releasedCond, Bool.and_eq_false_iff] at hc'
    rcases hc' with h1 | h1
    · have h1b : (s.keys_to_send i).is_dummy = true := by
        cases hb : (s.keys_to_send i).is_dummy
        · rw [hb] at h1; cases h1
        · rfl
      rw [h1b] at h; cases h
    · simpa using h1

theorem remove_distinct {curr : Fin 6 → Key} {s : SendState}
    (hs : slots_distinct s) : slots_distinct (remove_released_keys curr s) := by
  intro i j hij hnd
  obtain ⟨hi, _⟩ := remove_occupied_found hnd
  rw [hi] at hnd ⊢
  rw [remove_keys_eq]
  by_cases hc : releasedCond curr (s.keys_to_send j) = true
  · rw [hc]
    simp only [if_pos trivial]
    exact keyEq_dummy_false hnd (by simp [mkKey0, Key.is_dummy, KEY_DUMMY])
  · have hc' : releasedCond curr (s.keys_to_send j) = false := by simpa using hc
    rw [hc']
    simp only [Bool.false_eq_true, if_false]
    exact hs i j hij hnd

theorem remove_codes_match {curr : Fin 6 → Key} {s : SendState}
    (hs : codes_match s) : codes_match (remove_released_keys curr s) := by
  intro i
  rw [remove_keys_eq, remove_codes_eq]
  by_cases hc : releasedCond curr (s.keys_to_send i) = true
  · rw [hc]
    simp [mkKey0, Key.is_dummy, KEY_DUMMY]
  · have hc' : releasedCond curr (s.keys_to_send i) = false := by simpa using hc
    rw [hc']
    simp only [Bool.false_eq_true, if_false]
    exact hs i

theorem update_state_eq (fn fn2 : Bool) (pm : Key) (curr : Fin 6 → Key) (s : SendState) :
    (update_keys_to_send fn fn2 pm curr s).state =
      place_keys fn fn2 curr (remove_released_keys curr s) := rfl

/-- A slot whose key is still pressed survives a whole resolution cycle:
same key, same stored code, whatever the layer flags of the new cycle. -/
theorem cycle_keeps_slot {s : SendState} {i : Fin 6} {k : Key} {curr : Fin 6 → Key}
    (fn fn2 : Bool) (pm : Key)
    (hocc : occupies s i k) (hfound : foundIn curr k = true) :
    (update_keys_to_send fn fn2 pm curr s).state.keys_to_send i = s.keys_to_send i ∧
    (update_keys_to_send fn fn2 pm curr s).state.codes_to_send i = s.codes_to_send i := by
  obtain ⟨hnd, hkeq⟩ := hocc
  have hfound' : foundIn curr (s.keys_to_send i) = true := by
    rw [foundIn_congr hkeq]; exact hfound
  obtain ⟨hr1, hr2⟩ := remove_keeps_found hfound'
  have hnd' : ((remove_released_keys curr s).keys_to_send i).is_dummy = false := by
    rw [hr1]; exact hnd
  rw [update_state_eq, place_keys_eq_foldl]
  obtain ⟨hp1, hp2⟩ :=
    foldl_place_preserves_occupied fn fn2 curr (List.finRange 6)
      (remove_released_keys curr s) i hnd'
  exact ⟨hp1.trans hr1, hp2.trans hr2⟩

theorem cycle_distinct {curr : Fin 6 → Key} {s : SendState} (fn fn2 : Bool) (pm : Key)
    (hs : slots_distinct s) :
    slots_distinct (update_keys_to_send fn fn2 pm curr s).state := by
  rw [update_state_eq, place_keys_eq_foldl]
  exact foldl_place_distinct fn fn2 curr (List.finRange 6) _ (remove_distinct hs)

theorem cycle_codes_match {curr : Fin 6 → Key} {s : SendState} (fn fn2 : Bool) (pm : Key)
    (hs : codes_match s) (hwf : ∀ i : Fin 6, (curr i).wf) :
    codes_match (update_keys_to_send fn fn2 pm curr s).state := by
  rw [update_state_eq, place_keys_eq_foldl]
  exact foldl_place_codes_match fn fn2 curr hwf (List.finRange 6) _ (remove_codes_match hs)

/-- With distinct slots, a key occupies at most one slot. -/
theorem occupies_unique {s : SendState} {k : Key} {i j : Fin 6}
    (hdist : slots_distinct s) (hi : occupies s i k) (hj : occupies s j k) : i = j := by
  by_contra hne
  have := hdist i j hne hi.1
  exact absurd (keyEq_trans hi.2 (keyEq_symm hj.2)) (by simp [this])

theorem run_cycles_keeps_slot {k : Key} {i : Fin 6} :
    ∀ (ins : List CycleIn) (s : SendState), slots_distinct s → occupies s i k →
      (∀ cin ∈ ins, foundIn cin.curr k = true) →
      occupies (run_cycles s ins) i k ∧ slots_distinct (run_cycles s ins) := by
  intro ins
  induction ins with
  | nil => intro s hdist hocc _; exact ⟨hocc, hdist⟩
  | cons c rest ih =>
    intro s hdist hocc hall
    have hc : foundIn c.curr k = true := hall c (List.mem_cons_self _ _)
    obtain ⟨h1, h2⟩ := cycle_keeps_slot c.fn c.fn2 c.pressed_media hocc hc
    have hocc' : occupies (update_keys_to_send c.fn c.fn2 c.pressed_media c.curr s).state i k := by
      constructor
      · rw [h1]; exact hocc.1
      · rw [h1]; exact hocc.2
    have hdist' := @cycle_distinct c.curr s c.fn c.fn2 c.pressed_media hdist
    exact ih _ hdist' hocc' (fun cin hcin => hall cin (List.mem_cons_of_mem c hcin))

theorem countP_eq_one_of {α : Type} (p : α → Bool) :
    ∀ (l : List α) (x : α), x ∈ l → l.Nodup → p x = true →
      (∀ y ∈ l, y ≠ x → p y = false) → l.countP p = 1 := by
  intro l
  induction l with
  | nil => intro x hmem; simp at hmem
  | cons a rest ih =>
    intro x hmem hnd hx hothers
    rw [List.countP_cons]
    by_cases hax : a = x
    · subst hax
      have hz : rest.countP p = 0 := by
        rw [List.countP_eq_zero]
        intro y hy
        have hyne : y ≠ a := by
          intro he; subst he
          exact (List.nodup_cons.1 hnd).1 hy
        simp [hothers y (List.mem_cons_of_mem a hy) hyne]
      rw [hz, hx]
      simp
    · have hxrest : x ∈ rest := by
        rcases List.mem_cons.1 hmem with h1 | h1
        · exact absurd h1.symm hax
        · exact h1
      have hpa : p a = false :=
        hothers a (List.mem_cons_self _ _) hax
      rw [ih x hxrest (List.nodup_cons.1 hnd).2 hx
        (fun y hy hyne => hothers y (List.mem_cons_of_mem a hy) hyne), hpa]
      simp

/-- Claim C1, counterexample. The claim says the tertiary code wins when
both layer flags are active; in `try_place_key` the `has_second &&
fn_pressed` branch is checked first, so the secondary code wins. On the
key `⟨1, 2, 3⟩` with both flags set the source resolves 2 (the secondary),
while the claimed resolution yields 3 (the tertiary). -/
theorem c1_counterexample :
    resolve_code true true keyBoth = 2 ∧
    resolve_code_spec true true keyBoth = 3 ∧
    resolve_code true true keyBoth ≠ resolve_code_spec true true keyBoth := by
  refine ⟨by decide, by decide, by decide⟩

/-- Claim C1, amended: the resolved effective code equals the key's
secondary code if layer1 (FN) is active and the key has a secondary
mapping, else the tertiary code if layer2 (FN2) is active and the key has
a tertiary mapping, else the primary code; in particular layer1 wins over
layer2 when both flags are active and both alternates exist. -/
theorem c1_code_resolution_amended (k : Key) (fn fn2 : Bool) :
    (k.has_second = true → fn = true → resolve_code fn fn2 k = k.second) ∧
    (¬(k.has_second = true ∧ fn = true) → k.has_third = true → fn2 = true →
      resolve_code fn fn2 k = k.third) ∧
    (¬(k.has_second = true ∧ fn = true) → ¬(k.has_third = true ∧ fn2 = true) →
      resolve_code fn fn2 k = k.code) := by
  refine ⟨?_, ?_, ?_⟩
  · intro hs hf
    unfold resolve_code
    rw [if_pos (by simp [hs, hf])]
  · intro hns ht hf2
    have h2 : ¬(k.has_second && fn) = true := by
      simpa [Bool.and_eq_true_iff] using hns
    unfold resolve_code
    rw [if_neg h2, if_pos (by simp [ht, hf2])]
  · intro hns hnt
    have h2 : ¬(k.has_second && fn) = true := by
      simpa [Bool.and_eq_true_iff] using hns
    have h3 : ¬(k.has_third && fn2) = true := by
      simpa [Bool.and_eq_true_iff] using hnt
    unfold resolve_code
    rw [if_neg h2, if_neg h3]

/-- Claim C1, witness for the amended theorem: on `⟨1, 2, 3⟩` with both
layer flags active the resolved code is the secondary code 2. -/
theorem c1_witness :
    (Key.has_second keyBoth = true ∧ resolve_code true true keyBoth = keyBoth.second) :=
  ⟨by decide, (c1_code_resolution_amended keyBoth true true).1 (by decide) rfl⟩

/-- Claim C2, counterexample. `keyB` (primary 1, secondary 2) is held for
two consecutive cycles; the second cycle has FN active. The claim says the
slot's code is recomputed, so it should be the secondary code 2; the
source skips resident keys in `try_place_key`, so the code stays 1. -/
theorem c2_counterexample :
    (update_keys_to_send true false mkKey0 currB stateB).state.codes_to_send 0 = 1 ∧
    (update_keys_to_send true false mkKey0 currB stateB).state.keys_to_send 0 = keyB ∧
    resolve_code true false keyB = 2 ∧ (1 : Int) ≠ 2 := by
  refine ⟨by decide, by decide, by decide, by decide⟩

/-- Claim C2, amended: the per-slot output code is computed only when a key
is placed into a free slot. For a key that stays continuously held in a
slot, `try_place_key` is a no-op (it returns `false` without writing), so
the slot's stored code is unchanged by the next cycle, whatever the layer
flags of that cycle. -/
theorem c2_stale_code_amended (s : SendState) (i : Fin 6) (k : Key)
    (curr : Fin 6 → Key) (fn fn2 : Bool) (pm : Key)
    (hk : k.is_dummy = false) (hocc : occupies s i k) (hfound : foundIn curr k = true) :
    (update_keys_to_send fn fn2 pm curr s).state.codes_to_send i = s.codes_to_send i ∧
    try_place_key fn fn2 s k = (s, false) := by
  refine ⟨(cycle_keeps_slot fn fn2 pm hocc hfound).2, ?_⟩
  exact try_place_of_resident hk (residentB_iff.2 ⟨i, hocc.2⟩)

/-- Claim C2, witness for the amended theorem: `keyB` held in slot 0 of
`stateB`, still pressed, FN newly active — the stored code is unchanged. -/
theorem c2_witness :
    (Key.is_dummy keyB = false ∧ occupies stateB 0 keyB ∧ foundIn currB keyB = true) ∧
    (update_keys_to_send true false mkKey0 currB stateB).state.codes_to_send 0 =
      stateB.codes_to_send 0 :=
  ⟨by decide,
   (c2_stale_code_amended stateB 0 keyB currB true false mkKey0
     (by decide) (by decide) (by decide)).1⟩

/-- Claim C3: slot stability. If `k` occupies slot `i` and is present (by
the `operator==` of the source) in the scanned ordinary-pressed buffer of
every one of the following cycles, then after running those cycles `k`
still occupies slot `i`, and it occupies no other slot. -/
theorem c3_slot_stability (s : SendState) (k : Key) (i : Fin 6) (ins : List CycleIn)
    (hdist : slots_distinct s) (hocc : occupies s i k)
    (hins : ∀ cin ∈ ins, foundIn cin.curr k = true) :
    occupies (run_cycles s ins) i k ∧
    ∀ j : Fin 6, occupies (run_cycles s ins) j k → j = i := by
  obtain ⟨h1, h2⟩ := run_cycles_keeps_slot ins s hdist hocc hins
  exact ⟨h1, fun j hj => occupies_unique h2 hj h1⟩

/-- Claim C3, witness: `keyB` pressed from the initial state, then held for
two more cycles with changing layer flags — it stays in slot 0. -/
theorem c3_witness :
    (slots_distinct stateB ∧ occupies stateB 0 keyB ∧
      ∀ cin ∈ [CycleIn.mk currB true false mkKey0, CycleIn.mk currB false true mkKey0],
        foundIn cin.curr keyB = true) ∧
    occupies (run_cycles stateB
      [CycleIn.mk currB true false mkKey0, CycleIn.mk currB false true mkKey0]) 0 keyB :=
  ⟨⟨by decide, by decide, by decide⟩,
   (c3_slot_stability stateB keyB 0
     [CycleIn.mk currB true false mkKey0, CycleIn.mk currB false true mkKey0]
     (by decide) (by decide) (by decide)).1⟩

/-- Claim C4: release detection. A key occupying a slot and absent (by
`operator==`) from the scanned ordinary-pressed buffer is recorded exactly
once in `just_released_keys`, its slot is cleared to the dummy key and its
code to the neutral `0`, and the release phase is completed before the
placement phase of the same cycle runs. -/
theorem c4_release_detection (curr : Fin 6 → Key) (s : SendState) (i : Fin 6) (k : Key)
    (hdist : slots_distinct s) (hocc : occupies s i k) (hnf : foundIn curr k = false) :
    ((remove_released_keys curr s).keys_to_send i).is_dummy = true ∧
    (remove_released_keys curr s).codes_to_send i = 0 ∧
    (released_of curr s.keys_to_send).countP (fun x => keyEq x k) = 1 ∧
    ∀ fn fn2 pm,
      (update_keys_to_send fn fn2 pm curr s).just_released_keys =
        released_of curr s.keys_to_send ∧
      (update_keys_to_send fn fn2 pm curr s).state =
        place_keys fn fn2 curr (remove_released_keys curr s) := by
  obtain ⟨hnd, hkeq⟩ := hocc
  have hnf' : foundIn curr (s.keys_to_send i) = false := by
    rw [foundIn_congr hkeq]; exact hnf
  obtain ⟨h1, h2⟩ := remove_clears_released hnd hnf'
  refine ⟨by rw [h1]; decide, h2, ?_, fun fn fn2 pm => ⟨rfl, rfl⟩⟩
  unfold released_of
  rw [List.countP_filter, List.countP_map]
  refine countP_eq_one_of _ (List.finRange 6) i (List.mem_finRange i)
    (List.nodup_finRange 6) ?_ ?_
  · simp only [Function.comp]
    have hrc : releasedCond curr (s.keys_to_send i) = true := by
      simp [releasedCond, hnd, hnf']
    rw [hkeq, hrc]
    rfl
  · intro j hj hji
    simp only [Function.comp]
    by_cases hq : keyEq (s.keys_to_send j) k = true
    · exfalso
      have hjnd : (s.keys_to_send j).is_dummy = false := by
        rw [keyEq_dummy_congr hq, keyEq_dummy_congr (keyEq_symm hkeq)]
        exact hnd
      have := hdist j i hji hjnd
      exact absurd (keyEq_trans hq (keyEq_symm hkeq)) (by simp [this])
    · have hq' : keyEq (s.keys_to_send j) k = false := by simpa using hq
      rw [hq']
      simp

/-- Claim C4, witness: `keyB` resident in slot 0 of `stateB` and released
(empty scan buffer) — cleared and recorded once. -/
theorem c4_witness :
    (slots_distinct stateB ∧ occupies stateB 0 keyB ∧
      foundIn (fun _ => mkKey0) keyB = false) ∧
    (released_of (fun _ => mkKey0) stateB.keys_to_send).countP (fun x => keyEq x keyB) = 1 :=
  ⟨⟨by decide, by decide, by decide⟩,
   (c4_release_detection (fun _ => mkKey0) stateB 0 keyB
     (by decide) (by decide) (by decide)).2.2.1⟩

/-- Claim C5: the state invariant — a slot of `keys_to_send` is dummy iff
its `codes_to_send` entry is the neutral `0`, and no key value (by
`operator==`) occupies two distinct slots — holds after `init` and is
preserved by every resolution cycle (for scanned keys whose codes survive
the `uint8_t` truncation, as every real HID code in the layout does). -/
theorem c5_invariants :
    (slots_distinct init_board ∧ codes_match init_board) ∧
    ∀ (curr : Fin 6 → Key) (fn fn2 : Bool) (pm : Key) (s : SendState),
      slots_distinct s → codes_match s → (∀ i : Fin 6, (curr i).wf) →
      slots_distinct (update_keys_to_send fn fn2 pm curr s).state ∧
      codes_match (update_keys_to_send fn fn2 pm curr s).state := by
  constructor
  · constructor
    · intro i j hij hnd
      simp [init_board, mkKey0, Key.is_dummy, KEY_DUMMY] at hnd
    · intro i
      simp [init_board, mkKey0, Key.is_dummy, KEY_DUMMY]
  · intro curr fn fn2 pm s hdist hcm hwf
    exact ⟨cycle_distinct fn fn2 pm hdist, cycle_codes_match fn fn2 pm hcm hwf⟩

/-- Claim C5, witness: the invariant is preserved on a concrete cycle. -/
theorem c5_witness :
    (slots_distinct init_board ∧ codes_match init_board ∧ ∀ i : Fin 6, (currB i).wf) ∧
    (slots_distinct (update_keys_to_send false false mkKey0 currB init_board).state ∧
     codes_match (update_keys_to_send false false mkKey0 currB init_board).state) :=
  ⟨⟨by decide, by decide, by decide⟩,
   c5_invariants.2 currB false false mkKey0 init_board (by decide) (by decide) (by decide)⟩

/-- Claim C7: media resolution. The emitted media code is the secondary of
the scanned media key when FN is active and it has one, else its primary;
the neutral `0` when no media key was scanned; and the FN2 flag never
influences the media output of a cycle. -/
theorem c7_media_resolution :
    (∀ (m : Key) (fn : Bool), m.has_second = true → fn = true →
      resolve_media fn m = m.second ∨ m.is_dummy = true) ∧
    (∀ (m : Key) (fn : Bool), m.is_dummy = false → ¬(m.has_second = true ∧ fn = true) →
      resolve_media fn m = m.code) ∧
    (∀ (m : Key) (fn : Bool), m.is_dummy = true → resolve_media fn m = 0) ∧
    (∀ (fn fn2 fn2' : Bool) (pm : Key) (curr : Fin 6 → Key) (s : SendState),
      (update_keys_to_send fn fn2 pm curr s).current_media =
      (update_keys_to_send fn fn2' pm curr s).current_media) := by
  refine ⟨?_, ?_, ?_, ?_⟩
  · intro m fn hs hf
    by_cases hd : m.is_dummy = true
    · exact Or.inr hd
    · have hd' : m.is_dummy = false := by simpa using hd
      left
      unfold resolve_media
      rw [hd']
      simp [hs, hf]
  · intro m fn hd hns
    have h2 : ¬(m.has_second && fn) = true := by
      simpa [Bool.and_eq_true_iff] using hns
    unfold resolve_media
    rw [hd]
    simp only [Bool.not_false, if_pos trivial]
    rw [if_neg h2]
  · intro m fn hd
    unfold resolve_media
    rw [hd]
    simp
  · intro fn fn2 fn2' pm curr s
    rfl

/-- Claim C7, witness: a media key `⟨0xE401, 5, 0⟩` with FN active resolves
to its secondary 5; with FN inactive to its primary; the dummy media key
resolves to 0. -/
theorem c7_witness :
    (Key.has_second ⟨0xE401, 5, 0⟩ = true ∧ Key.is_dummy ⟨0xE401, 5, 0⟩ = false) ∧
    (resolve_media true ⟨0xE401, 5, 0⟩ = (5 : Int) ∨ Key.is_dummy ⟨0xE401, 5, 0⟩ = true) := by
  refine ⟨⟨by decide, by decide⟩, ?_⟩
  have h := c7_media_resolution.1 ⟨0xE401, 5, 0⟩ true (by decide) rfl
  exact h

/-- Claim C9: key equality compares exactly the primary and secondary
codes; the tertiary code is excluded, so `⟨1,2,3⟩` and `⟨1,2,4⟩` compare
equal, and this equality is the one used for the placement dedup and for
release detection. -/
theorem c9_key_equality :
    (∀ a b : Key, keyEq a b = true ↔ (a.code = b.code ∧ a.second = b.second)) ∧
    (keyEq keyBoth ⟨1, 2, 4⟩ = true ∧ Key.third keyBoth ≠ Key.third ⟨1, 2, 4⟩) ∧
    (∀ (fn fn2 : Bool) (s : SendState) (k : Key), k.is_dummy = false →
      residentB s k = true → try_place_key fn fn2 s k = (s, false)) ∧
    (∀ (curr : Fin 6 → Key) (s : SendState) (i : Fin 6),
      foundIn curr (s.keys_to_send i) = true →
      (remove_released_keys curr s).keys_to_send i = s.keys_to_send i) := by
  refine ⟨keyEq_iff, ⟨by decide, by decide⟩, ?_, ?_⟩
  · intro fn fn2 s k hk hres
    exact try_place_of_resident hk hres
  · intro curr s i h
    exact (remove_keeps_found h).1

/-- Claim C9, witness: placing `⟨1,2,4⟩` while `⟨1,2,3⟩` is resident is a
no-op — the two keys are deduplicated as one. -/
theorem c9_witness :
    (Key.is_dummy ⟨1, 2, 4⟩ = false ∧ residentB stateB ⟨1, 2, 4⟩ = true) ∧
    try_place_key false false stateB ⟨1, 2, 4⟩ = (stateB, false) :=
  ⟨⟨by decide, by decide⟩,
   c9_key_equality.2.2.1 false false stateB ⟨1, 2, 4⟩ (by decide) (by decide)⟩

theorem scan_step_pressed_media (layout : Nat → Nat → Key) (read : Nat → Nat → Bool)
    (mm : List Int) (st : ScanState) (p : Nat × Nat) :
    (scan_step layout read mm st p).pressed_media =
      if !(layout p.1 p.2).is_dummy && read p.1 p.2 &&
          (!(layout p.1 p.2).is_fn && !(layout p.1 p.2).is_fn2 &&
           !(layout p.1 p.2).is_modifier && (layout p.1 p.2).is_media) then
        layout p.1 p.2
      else st.pressed_media := by
  rcases p with ⟨a, b⟩
  unfold scan_step
  by_cases hd : (layout a b).is_dummy = true <;>
    by_cases hr : read a b = true <;>
      by_cases h1 : (layout a b).is_fn = true <;>
        by_cases h2 : (layout a b).is_fn2 = true <;>
          by_cases h3 : (layout a b).is_modifier = true <;>
            by_cases h4 : (layout a b).is_media = true <;>
              simp_all [apply_dite]

theorem scan_step_ord_true (layout : Nat → Nat → Key) (read : Nat → Nat → Bool)
    (mm : List Int) (st : ScanState) (p : Nat × Nat)
    (hc : (!(layout p.1 p.2).is_dummy && read p.1 p.2 &&
      (!(layout p.1 p.2).is_fn && !(layout p.1 p.2).is_fn2 &&
       !(layout p.1 p.2).is_modifier && !(layout p.1 p.2).is_media)) = true) :
    (scan_step layout read mm st p).num_keys_pressed = st.num_keys_pressed + 1 ∧
    (scan_step layout read mm st p).curr_pressed_keys =
      (if h : st.num_keys_pressed < 6 then
        Function.update st.curr_pressed_keys ⟨st.num_keys_pressed, h⟩ (layout p.1 p.2)
       else st.curr_pressed_keys) := by
  rcases p with ⟨a, b⟩
  simp only [Bool.and_eq_true, Bool.not_eq_true'] at hc
  obtain ⟨⟨hd, hr⟩, ⟨⟨h1, h2⟩, h3⟩, h4⟩ := hc
  unfold scan_step
  by_cases h6 : st.num_keys_pressed < 6
  · simp only [dif_pos h6]
    simp_all
  · simp only [dif_neg h6]
    simp_all

theorem scan_step_ord_false (layout : Nat → Nat → Key) (read : Nat → Nat → Bool)
    (mm : List Int) (st : ScanState) (p : Nat × Nat)
    (hc : (!(layout p.1 p.2).is_dummy && read p.1 p.2 &&
      (!(layout p.1 p.2).is_fn && !(layout p.1 p.2).is_fn2 &&
       !(layout p.1 p.2).is_modifier && !(layout p.1 p.2).is_media)) = false) :
    (scan_step layout read mm st p).num_keys_pressed = st.num_keys_pressed ∧
    (scan_step layout read mm st p).curr_pressed_keys = st.curr_pressed_keys := by
  rcases p with ⟨a, b⟩
  unfold scan_step
  by_cases hd : (layout a b).is_dummy = true <;>
    by_cases hr : read a b = true <;>
      by_cases h1 : (layout a b).is_fn = true <;>
        by_cases h2 : (layout a b).is_fn2 = true <;>
          by_cases h3 : (layout a b).is_modifier = true <;>
            by_cases h4 : (layout a b).is_media = true <;>
              simp_all

theorem mediaScanned_cons (layout : Nat → Nat → Key) (read : Nat → Nat → Bool)
    (p : Nat × Nat) (ps : List (Nat × Nat)) :
    mediaScanned layout read (p :: ps) =
      if !(layout p.1 p.2).is_dummy && read p.1 p.2 &&
          (!(layout p.1 p.2).is_fn && !(layout p.1 p.2).is_fn2 &&
           !(layout p.1 p.2).is_modifier && (layout p.1 p.2).is_media) then
        layout p.1 p.2 :: mediaScanned layout read ps
      else mediaScanned layout read ps := rfl

theorem ordScanned_cons (layout : Nat → Nat → Key) (read : Nat → Nat → Bool)
    (p : Nat × Nat) (ps : List (Nat × Nat)) :
    ordScanned layout read (p :: ps) =
      if !(layout p.1 p.2).is_dummy && read p.1 p.2 &&
          (!(layout p.1 p.2).is_fn && !(layout p.1 p.2).is_fn2 &&
           !(layout p.1 p.2).is_modifier && !(layout p.1 p.2).is_media) then
        layout p.1 p.2 :: ordScanned layout read ps
      else ordScanned layout read ps := rfl

theorem foldl_scan_media (layout : Nat → Nat → Key) (read : Nat → Nat → Bool)
    (mm : List Int) :
    ∀ (ps : List (Nat × Nat)) (st : ScanState),
      (ps.foldl (scan_step layout read mm) st).pressed_media =
        (mediaScanned layout read ps).getLastD st.pressed_media := by
  intro ps
  induction ps with
  | nil => intro st; rfl
  | cons p rest ih =>
    intro st
    rw [List.foldl_cons, ih, mediaScanned_cons]
    by_cases hc : (!(layout p.1 p.2).is_dummy && read p.1 p.2 &&
        (!(layout p.1 p.2).is_fn && !(layout p.1 p.2).is_fn2 &&
         !(layout p.1 p.2).is_modifier && (layout p.1 p.2).is_media)) = true
    · rw [if_pos hc, List.getLastD_cons]
      congr 1
      rw [scan_step_pressed_media, if_pos hc]
    · rw [if_neg hc]
      congr 1
      rw [scan_step_pressed_media, if_neg hc]

/-- Claim C8: media last-write-wins. When at least two pressed keys are
classified as media in one scan, the `pressed_media` left by `scan_keys` is
the media key encountered last in row-major scan order (each later one
overwrote the earlier). -/
theorem c8_media_last_write_wins (layout : Nat → Nat → Key) (read : Nat → Nat → Bool)
    (mm : List Int)
    (h2 : 2 ≤ (mediaScanned layout read scanPositions).length) :
    (scan_keys layout read mm).pressed_media =
      (mediaScanned layout read scanPositions).getLastD mkKey0 := by
  unfold scan_keys
  rw [foldl_scan_media]
  rfl

theorem foldl_scan_ord (layout : Nat → Nat → Key) (read : Nat → Nat → Bool)
    (mm : List Int) :
    ∀ (ps : List (Nat × Nat)) (st : ScanState) (l0 : List Key),
      st.num_keys_pressed = l0.length →
      (∀ i : Fin 6, st.curr_pressed_keys i = l0.getD i mkKey0) →
      (ps.foldl (scan_step layout read mm) st).num_keys_pressed =
        l0.length + (ordScanned layout read ps).length ∧
      ∀ i : Fin 6, (ps.foldl (scan_step layout read mm) st).curr_pressed_keys i =
        (l0 ++ ordScanned layout read ps).getD i mkKey0 := by
  intro ps
  induction ps with
  | nil =>
    intro st l0 hn hc
    refine ⟨by simpa [ordScanned] using hn, fun i => by simpa [ordScanned] using hc i⟩
  | cons p rest ih =>
    intro st l0 hn hc
    rw [List.foldl_cons, ordScanned_cons]
    by_cases hcnd : (!(layout p.1 p.2).is_dummy && read p.1 p.2 &&
        (!(layout p.1 p.2).is_fn && !(layout p.1 p.2).is_fn2 &&
         !(layout p.1 p.2).is_modifier && !(layout p.1 p.2).is_media)) = true
    · rw [if_pos hcnd]
      obtain ⟨hs1, hs2⟩ := scan_step_ord_true layout read mm st p hcnd
      have hn' : (scan_step layout read mm st p).num_keys_pressed =
          (l0 ++ [layout p.1 p.2]).length := by
        rw [hs1, hn]; simp
      have hc' : ∀ i : Fin 6, (scan_step layout read mm st p).curr_pressed_keys i =
          (l0 ++ [layout p.1 p.2]).getD i mkKey0 := by
        intro i
        rw [hs2]
        by_cases h6 : st.num_keys_pressed < 6
        · rw [dif_pos h6]
          by_cases hi : (i : Nat) = l0.length
          · have hgd : (l0 ++ [layout p.1 p.2]).getD (i : Nat) mkKey0 = layout p.1 p.2 := by
              rw [hi, List.getD_append_right l0 [layout p.1 p.2] mkKey0 l0.length (le_refl _)]
              simp
            have hidx : (⟨st.num_keys_pressed, h6⟩ : Fin 6) = i := by
              apply Fin.ext
              simp only [hn]
              exact hi.symm
            rw [hgd, ← hidx, Function.update_same]
          · have hne : i ≠ (⟨st.num_keys_pressed, h6⟩ : Fin 6) := by
              intro he
              apply hi
              rw [he]
              simp [hn]
            rw [Function.update_noteq hne, hc i]
            by_cases hlt : (i : Nat) < l0.length
            · rw [List.getD_append l0 [layout p.1 p.2] mkKey0 i hlt]
            · have hge : l0.length ≤ (i : Nat) := le_of_not_lt hlt
              rw [List.getD_eq_default l0 mkKey0 hge,
                List.getD_eq_default _ mkKey0 (by simp; omega)]
        · rw [dif_neg h6]
          rw [hc i]
          have hlt : (i : Nat) < l0.length := by
            have h1 : (i : Nat) < 6 := i.isLt
            omega
          rw [List.getD_append l0 [layout p.1 p.2] mkKey0 i hlt]
      obtain ⟨ih1, ih2⟩ := ih (scan_step layout read mm st p) (l0 ++ [layout p.1 p.2]) hn' hc'
      constructor
      · rw [ih1]
        simp only [List.length_append, List.length_cons, List.length_nil]
        omega
      · intro i
        rw [ih2 i, List.append_assoc]
        rfl
    · rw [if_neg hcnd]
      obtain ⟨hs1, hs2⟩ := scan_step_ord_false layout read mm st p (by simpa using hcnd)
      exact ih (scan_step layout read mm st p) l0 (hs1.trans hn)
        (fun i => by rw [hs2]; exact hc i)

/-- Every key classified as ordinary by the scan is non-dummy (dummy layout
entries are skipped before classification). -/
theorem ordScanned_nondummy (layout : Nat → Nat → Key) (read : Nat → Nat → Bool) :
    ∀ (ps : List (Nat × Nat)), ∀ k ∈ ordScanned layout read ps, k.is_dummy = false := by
  intro ps
  induction ps with
  | nil => intro k hk; simp [ordScanned] at hk
  | cons p rest ih =>
    intro k hk
    rw [ordScanned_cons] at hk
    by_cases hcnd : (!(layout p.1 p.2).is_dummy && read p.1 p.2 &&
        (!(layout p.1 p.2).is_fn && !(layout p.1 p.2).is_fn2 &&
         !(layout p.1 p.2).is_modifier && !(layout p.1 p.2).is_media)) = true
    · rw [if_pos hcnd] at hk
      rcases List.mem_cons.1 hk with h1 | h1
      · subst h1
        have := (Bool.and_eq_true_iff.1 (Bool.and_eq_true_iff.1 hcnd).1).1
        simpa using this
      · exact ih k h1
    · rw [if_neg hcnd] at hk
      exact ih k hk

theorem keyEq_false_symm {a b : Key} (h : keyEq a b = false) : keyEq b a = false := by
  cases h2 : keyEq b a
  · rfl
  · exact absurd (keyEq_symm h2) (by simp [h])

theorem exists_dummy_of_occCount_lt {s : SendState} (h : occCount s < 6) :
    ∃ i : Fin 6, (s.keys_to_send i).is_dummy = true := by
  by_contra hno
  push_neg at hno
  have hall : ∀ i : Fin 6, (s.keys_to_send i).is_dummy = false := by
    intro i
    cases hb : (s.keys_to_send i).is_dummy
    · rfl
    · exact absurd hb (hno i)
  have : occCount s = 6 := by
    unfold occCount
    rw [Finset.filter_true_of_mem (fun i _ => hall i)]
    simp
  omega

theorem occCount_le_resident {s : SendState} {curr : Fin 6 → Key}
    (hdist : slots_distinct s) (hsub : occupied_sub curr s) :
    occCount s ≤ (Finset.univ.filter (fun j : Fin 6 => residentB s (curr j) = true)).card := by
  have hex : ∀ i : Fin 6, ∃ j : Fin 6, (s.keys_to_send i).is_dummy = false →
      keyEq (s.keys_to_send i) (curr j) = true := by
    intro i
    by_cases hnd : (s.keys_to_send i).is_dummy = false
    · obtain ⟨j, hj⟩ := foundIn_iff.1 (hsub i hnd)
      exact ⟨j, fun _ => hj⟩
    · exact ⟨0, fun h => absurd h hnd⟩
  choose f hf using hex
  apply Finset.card_le_card_of_injOn f
  · intro i hi
    rw [Finset.mem_filter] at hi ⊢
    exact ⟨Finset.mem_univ _, residentB_iff.2 ⟨i, hf i hi.2⟩⟩
  · intro i hi i2 hi2 heq
    rw [Finset.mem_coe, Finset.mem_filter] at hi hi2
    by_contra hne
    have h1 := hf i hi.2
    have h2 := hf i2 hi2.2
    rw [heq] at h1
    have := keyEq_trans h1 (keyEq_symm h2)
    exact absurd this (by simp [hdist i i2 hne hi.2])

theorem resident_card_le_five {s : SendState} {curr : Fin 6 → Key} {j0 : Fin 6}
    (h : residentB s (curr j0) = false) :
    (Finset.univ.filter (fun j : Fin 6 => residentB s (curr j) = true)).card ≤ 5 := by
  have hsub : Finset.univ.filter (fun j : Fin 6 => residentB s (curr j) = true) ⊆
      Finset.univ.erase j0 := by
    intro j hj
    rw [Finset.mem_filter] at hj
    rw [Finset.mem_erase]
    refine ⟨?_, Finset.mem_univ _⟩
    intro he
    subst he
    rw [h] at hj
    exact absurd hj.2 (by simp)
  have := Finset.card_le_card hsub
  rw [Finset.card_erase_of_mem (Finset.mem_univ _)] at this
  simpa using this

/-- If the key is not resident and some slot is free, `try_place_key`
places it: the key is resident afterwards. -/
theorem try_place_places {fn fn2 : Bool} {s : SendState} {k : Key}
    (hres : residentB s k = false)
    (hfree : ∃ i0 : Fin 6, (s.keys_to_send i0).is_dummy = true) :
    residentB (try_place_key fn fn2 s k).1 k = true := by
  have hall : ∀ i ∈ List.finRange 6, keyEq (s.keys_to_send i) k = false := by
    intro i _
    by_cases h : keyEq (s.keys_to_send i) k = true
    · exact absurd (residentB_iff.2 ⟨i, h⟩) (by simp [hres])
    · simpa using h
  have hscan := placeScan_not_found
    (List.finRange 6) none hall
  rcases hff : firstFree s.keys_to_send (List.finRange 6) none with _ | idx
  · exfalso
    obtain ⟨i0, hi0⟩ := hfree
    obtain ⟨_, hnone⟩ := firstFree_eq_none (List.finRange 6) none hff
    rw [hnone i0 (List.mem_finRange i0)] at hi0
    cases hi0
  · have hstate : (try_place_key fn fn2 s k).1.keys_to_send =
        Function.update s.keys_to_send idx k := by
      unfold try_place_key
      rw [hscan, hff]
    refine residentB_iff.2 ⟨idx, ?_⟩
    rw [hstate, Function.update_same]
    exact keyEq_refl k

theorem place_step_distinct {fn fn2 : Bool} {curr : Fin 6 → Key} {s : SendState}
    (hcd : ∀ i : Fin 6, (curr i).is_dummy = false) (hdist : slots_distinct s) (m : Fin 6) :
    slots_distinct (place_step fn fn2 curr s m) := by
  unfold place_step
  rw [if_neg (by simp [hcd m])]
  exact try_place_distinct hdist (hcd m)

theorem place_step_occupied_sub {fn fn2 : Bool} {curr : Fin 6 → Key} {s : SendState}
    (hcd : ∀ i : Fin 6, (curr i).is_dummy = false) (hsub : occupied_sub curr s) (m : Fin 6) :
    occupied_sub curr (place_step fn fn2 curr s m) := by
  intro i hnd
  have hstep : place_step fn fn2 curr s m = (try_place_key fn fn2 s (curr m)).1 := by
    unfold place_step
    rw [if_neg (by simp [hcd m])]
  rw [hstep] at hnd ⊢
  rcases @try_place_slot_old_or_new fn fn2 s (curr m) (hcd m) i with h | h
  · rw [h] at hnd ⊢
    exact hsub i hnd
  · rw [h]
    exact foundIn_iff.2 ⟨m, keyEq_refl _⟩

theorem place_step_covers {fn fn2 : Bool} {curr : Fin 6 → Key} {s : SendState}
    (hcd : ∀ i : Fin 6, (curr i).is_dummy = false) (hdist : slots_distinct s)
    (hsub : occupied_sub curr s) (m : Fin 6) :
    residentB (place_step fn fn2 curr s m) (curr m) = true := by
  have hstep : place_step fn fn2 curr s m = (try_place_key fn fn2 s (curr m)).1 := by
    unfold place_step
    rw [if_neg (by simp [hcd m])]
  rw [hstep]
  by_cases hres : residentB s (curr m) = true
  · exact try_place_mono_resident (hcd m) (hcd m) hres
  · have hres' : residentB s (curr m) = false := by simpa using hres
    have hocc : occCount s ≤ 5 :=
      le_trans (occCount_le_resident hdist hsub) (resident_card_le_five hres')
    exact try_place_places hres' (exists_dummy_of_occCount_lt (by omega))

theorem foldl_place_occupied_sub (fn fn2 : Bool) (curr : Fin 6 → Key)
    (hcd : ∀ i : Fin 6, (curr i).is_dummy = false) :
    ∀ (l : List (Fin 6)) (s : SendState), occupied_sub curr s →
      occupied_sub curr (l.foldl (place_step fn fn2 curr) s) := by
  intro l
  induction l with
  | nil => intro s h; exact h
  | cons m rest ih =>
    intro s h
    rw [List.foldl_cons]
    exact ih _ (place_step_occupied_sub hcd h m)

theorem foldl_place_covers (fn fn2 : Bool) (curr : Fin 6 → Key)
    (hcd : ∀ i : Fin 6, (curr i).is_dummy = false) :
    ∀ (l : List (Fin 6)) (s : SendState), slots_distinct s → occupied_sub curr s →
      ∀ j ∈ l, residentB (l.foldl (place_step fn fn2 curr) s) (curr j) = true := by
  intro l
  induction l with
  | nil => intro s _ _ j hj; simp at hj
  | cons m rest ih =>
    intro s hdist hsub j hj
    rw [List.foldl_cons]
    rcases List.mem_cons.1 hj with h | h
    · subst h
      exact foldl_place_mono_resident fn fn2 curr rest _ (curr j) (hcd j)
        (place_step_covers hcd hdist hsub j)
    · exact ih _ (place_step_distinct hcd hdist m) (place_step_occupied_sub hcd hsub m) j h

/-- Six pairwise distinct resident keys force every slot to be occupied. -/
theorem all_occupied_of_residents {s : SendState} {curr : Fin 6 → Key}
    (hcd : ∀ i : Fin 6, (curr i).is_dummy = false)
    (hcdist : ∀ i j : Fin 6, i ≠ j → keyEq (curr i) (curr j) = false)
    (hres : ∀ j : Fin 6, residentB s (curr j) = true) :
    ∀ i : Fin 6, (s.keys_to_send i).is_dummy = false := by
  have hex : ∀ j : Fin 6, ∃ i : Fin 6, keyEq (s.keys_to_send i) (curr j) = true :=
    fun j => residentB_iff.1 (hres j)
  choose g hg using hex
  have hinj : Function.Injective g := by
    intro j j2 he
    by_contra hne
    have h1 := hg j
    rw [he] at h1
    have := keyEq_trans (keyEq_symm h1) (hg j2)
    exact absurd this (by simp [hcdist j j2 hne])
  intro i
  obtain ⟨j, hj⟩ := Finite.injective_iff_surjective.1 hinj i
  have h1 := hg j
  rw [hj] at h1
  rw [keyEq_dummy_congr h1]
  exact hcd j

/-- A key absent (by `operator==`) from `curr` is not resident in any state
whose occupied slots all hold keys present in `curr`. -/
theorem not_resident_of_not_found {s : SendState} {curr : Fin 6 → Key} {k : Key}
    (hk : k.is_dummy = false) (hsub : occupied_sub curr s)
    (hnf : foundIn curr k = false) : residentB s k = false := by
  cases hb : residentB s k
  · rfl
  · exfalso
    obtain ⟨i, hi⟩ := residentB_iff.1 hb
    have hnd : (s.keys_to_send i).is_dummy = false := by
      rw [keyEq_dummy_congr hi]
      exact hk
    have := hsub i hnd
    rw [foundIn_congr (keyEq_symm hi)] at hnf
    rw [this] at hnf
    cases hnf

/-- Claim C8, witness: two media keys at (0,0) and (0,1), both pressed —
the scan keeps the one at (0,1), scanned later. -/
theorem c8_witness :
    (2 ≤ (mediaScanned layoutM readAll scanPositions).length ∧
      (mediaScanned layoutM readAll scanPositions).getLastD mkKey0 = mkKey1 0xE402) ∧
    (scan_keys layoutM readAll []).pressed_media =
      (mediaScanned layoutM readAll scanPositions).getLastD mkKey0 :=
  ⟨⟨by decide, by decide⟩, c8_media_last_write_wins layoutM readAll [] (by decide)⟩

/-- Claim C6: capacity ceiling. In a cycle whose scan classifies more than
`MAX_NUM_KEYS = 6` pairwise distinct ordinary keys as pressed: (a) the
ordinary-seen counter `num_keys_pressed` still counts every ordinary key,
the dropped ones included; (b) the fixed `curr_pressed_keys` buffer (all
writes index below 6 by the capacity guard) receives exactly the first six
ordinary keys of the scan order; (c) after resolution every one of the six
slots is occupied; (d) every ordinary key beyond the first six occupies no
slot — it is silently dropped, with no error value anywhere. -/
theorem c6_capacity_ceiling (layout : Nat → Nat → Key) (read : Nat → Nat → Bool)
    (mm : List Int) (fn fn2 : Bool) (pm : Key) (s : SendState)
    (hdist : slots_distinct s)
    (hlen : 6 < (ordScanned layout read scanPositions).length)
    (hpair : (ordScanned layout read scanPositions).Pairwise
      (fun a b => keyEq a b = false)) :
    (scan_keys layout read mm).num_keys_pressed =
      (ordScanned layout read scanPositions).length ∧
    (∀ i : Fin 6, (scan_keys layout read mm).curr_pressed_keys i =
      (ordScanned layout read scanPositions).getD i mkKey0) ∧
    (∀ i : Fin 6,
      ((update_keys_to_send fn fn2 pm (scan_keys layout read mm).curr_pressed_keys s).state.keys_to_send
        i).is_dummy = false) ∧
    (∀ n : Nat, 6 ≤ n → n < (ordScanned layout read scanPositions).length →
      residentB
        (update_keys_to_send fn fn2 pm (scan_keys layout read mm).curr_pressed_keys s).state
        ((ordScanned layout read scanPositions).getD n mkKey0) = false) := by
  obtain ⟨ha, hb⟩ := foldl_scan_ord layout read mm scanPositions init_scan []
    rfl (fun i => rfl)
  have ha' : (scan_keys layout read mm).num_keys_pressed =
      (ordScanned layout read scanPositions).length := by
    unfold scan_keys
    rw [ha]
    simp
  have hb' : ∀ i : Fin 6, (scan_keys layout read mm).curr_pressed_keys i =
      (ordScanned layout read scanPositions).getD i mkKey0 := by
    intro i
    unfold scan_keys
    rw [hb i]
    rfl
  set os := ordScanned layout read scanPositions with hos
  set curr6 := (scan_keys layout read mm).curr_pressed_keys with hcurr6
  have hcd : ∀ i : Fin 6, (curr6 i).is_dummy = false := by
    intro i
    rw [hb' i]
    have hlt : (i : Nat) < os.length := by
      have := i.isLt
      omega
    rw [List.getD_eq_getElem os mkKey0 hlt]
    exact ordScanned_nondummy layout read scanPositions _ (List.getElem_mem hlt)
  have hcdist : ∀ i j : Fin 6, i ≠ j → keyEq (curr6 i) (curr6 j) = false := by
    intro i j hij
    rw [hb' i, hb' j]
    have hi : (i : Nat) < os.length := by have := i.isLt; omega
    have hj : (j : Nat) < os.length := by have := j.isLt; omega
    rw [List.getD_eq_getElem os mkKey0 hi, List.getD_eq_getElem os mkKey0 hj]
    rcases Nat.lt_or_ge (i : Nat) (j : Nat) with h | h
    · exact List.pairwise_iff_getElem.1 hpair i j hi hj h
    · have hlt : (j : Nat) < (i : Nat) := by
        rcases Nat.eq_or_lt_of_le h with he | hl
        · exact absurd (Fin.ext he.symm) hij
        · exact hl
      exact keyEq_false_symm (List.pairwise_iff_getElem.1 hpair j i hj hi hlt)
  have hstate : (update_keys_to_send fn fn2 pm curr6 s).state =
      (List.finRange 6).foldl (place_step fn fn2 curr6) (remove_released_keys curr6 s) := by
    rw [update_state_eq, place_keys_eq_foldl]
  have hdist1 : slots_distinct (remove_released_keys curr6 s) := remove_distinct hdist
  have hsub1 : occupied_sub curr6 (remove_released_keys curr6 s) := by
    intro i hnd
    exact (remove_occupied_found hnd).2
  have hres : ∀ j : Fin 6,
      residentB (update_keys_to_send fn fn2 pm curr6 s).state (curr6 j) = true := by
    intro j
    rw [hstate]
    exact foldl_place_covers fn fn2 curr6 hcd (List.finRange 6) _ hdist1 hsub1 j
      (List.mem_finRange j)
  have hocc : ∀ i : Fin 6,
      ((update_keys_to_send fn fn2 pm curr6 s).state.keys_to_send i).is_dummy = false :=
    all_occupied_of_residents hcd hcdist hres
  refine ⟨ha', hb', hocc, ?_⟩
  intro n hn6 hnlen
  have hknd : ((os.getD n mkKey0)).is_dummy = false := by
    rw [List.getD_eq_getElem os mkKey0 hnlen]
    exact ordScanned_nondummy layout read scanPositions _ (List.getElem_mem hnlen)
  have hnf : foundIn curr6 (os.getD n mkKey0) = false := by
    cases hb2 : foundIn curr6 (os.getD n mkKey0)
    · rfl
    · exfalso
      obtain ⟨j, hj⟩ := foundIn_iff.1 hb2
      rw [hb' j] at hj
      have hjlt : (j : Nat) < os.length := by have := j.isLt; omega
      have hpw := List.pairwise_iff_getElem.1 hpair j n hjlt hnlen (by have := j.isLt; omega)
      rw [List.getD_eq_getElem os mkKey0 hjlt, List.getD_eq_getElem os mkKey0 hnlen] at hj
      exact absurd (keyEq_symm hj) (by simp [hpw])
  have hsubf : occupied_sub curr6 (update_keys_to_send fn fn2 pm curr6 s).state := by
    rw [hstate]
    exact foldl_place_occupied_sub fn fn2 curr6 hcd (List.finRange 6) _ hsub1
  exact not_resident_of_not_found hknd hsubf hnf

/-- Claim C6, witness: seven distinct ordinary keys pressed at once from
the initial state — the counter reads 7, the buffer holds the first six,
all six slots fill, and the seventh key gets no slot. -/
theorem c6_witness :
    (slots_distinct init_board ∧
      6 < (ordScanned layout7 readAll scanPositions).length ∧
      (ordScanned layout7 readAll scanPositions).Pairwise (fun a b => keyEq a b = false)) ∧
    (scan_keys layout7 readAll []).num_keys_pressed =
      (ordScanned layout7 readAll scanPositions).length :=
  ⟨⟨by decide, by decide, by decide⟩,
   (c6_capacity_ceiling layout7 readAll [] false false mkKey0 init_board
     (by decide) (by decide) (by decide)).1⟩

theorem KEYS_row0_mod_ok (ext : ExtName → Nat) : ∀ c, mod_range_ok (KEYS_row0 ext c) := by
  intro c
  unfold mod_range_ok
  rcases c with _|_|_|_|_|_|_|_|_|_|_|_|_|_|c <;>
    (intro h1 h2 h3
     first
       | (simp [KEYS_row0, mkKey0, mkKey1, mkKey2, mkKey3, eInt, Key.is_fn, Key.is_fn2,
            Key.is_modifier, KEY_FN, KEY_FN2, KEY_DUMMY, KEY_LSHIFT, KEY_CTRL, KEY_ALT,
            KEY_ALTGR, KEY_SUPER, KEY_RSHIFT] at h1 h2 h3 ⊢
          omega)
       | simp [KEYS_row0, mkKey0, mkKey1, mkKey2, mkKey3, eInt, Key.is_fn, Key.is_fn2,
           Key.is_modifier, KEY_FN, KEY_FN2, KEY_DUMMY, KEY_LSHIFT, KEY_CTRL, KEY_ALT,
           KEY_ALTGR, KEY_SUPER, KEY_RSHIFT] at h1 h2 h3 ⊢
       | omega)

theorem KEYS_row1_mod_ok (ext : ExtName → Nat) : ∀ c, mod_range_ok (KEYS_row1 ext c) := by
  intro c
  unfold mod_range_ok
  rcases c with _|_|_|_|_|_|_|_|_|_|_|_|_|_|c <;>
    (intro h1 h2 h3
     first
       | (simp [KEYS_row1, mkKey0, mkKey1, mkKey2, mkKey3, eInt, Key.is_fn, Key.is_fn2,
            Key.is_modifier, KEY_FN, KEY_FN2, KEY_DUMMY, KEY_LSHIFT, KEY_CTRL, KEY_ALT,
            KEY_ALTGR, KEY_SUPER, KEY_RSHIFT] at h1 h2 h3 ⊢
          omega)
       | simp [KEYS_row1, mkKey0, mkKey1, mkKey2, mkKey3, eInt, Key.is_fn, Key.is_fn2,
           Key.is_modifier, KEY_FN, KEY_FN2, KEY_DUMMY, KEY_LSHIFT, KEY_CTRL, KEY_ALT,
           KEY_ALTGR, KEY_SUPER, KEY_RSHIFT] at h1 h2 h3 ⊢
       | omega)

theorem KEYS_row2_mod_ok (ext : ExtName → Nat) : ∀ c, mod_range_ok (KEYS_row2 ext c) := by
  intro c
  unfold mod_range_ok
  rcases c with _|_|_|_|_|_|_|_|_|_|_|_|_|_|c <;>
    (intro h1 h2 h3
     first
       | (simp [KEYS_row2, mkKey0, mkKey1, mkKey2, mkKey3, eInt, Key.is_fn, Key.is_fn2,
            Key.is_modifier, KEY_FN, KEY_FN2, KEY_DUMMY, KEY_LSHIFT, KEY_CTRL, KEY_ALT,
            KEY_ALTGR, KEY_SUPER, KEY_RSHIFT] at h1 h2 h3 ⊢
          omega)
       | simp [KEYS_row2, mkKey0, mkKey1, mkKey2, mkKey3, eInt, Key.is_fn, Key.is_fn2,
           Key.is_modifier, KEY_FN, KEY_FN2, KEY_DUMMY, KEY_LSHIFT, KEY_CTRL, KEY_ALT,
           KEY_ALTGR, KEY_SUPER, KEY_RSHIFT] at h1 h2 h3 ⊢
       | omega)

theorem KEYS_row3_mod_ok (ext : ExtName → Nat) : ∀ c, mod_range_ok (KEYS_row3 ext c) := by
  intro c
  unfold mod_range_ok
  rcases c with _|_|_|_|_|_|_|_|_|_|_|_|_|_|c <;>
    (intro h1 h2 h3
     first
       | (simp [KEYS_row3, mkKey0, mkKey1, mkKey2, mkKey3, eInt, Key.is_fn, Key.is_fn2,
            Key.is_modifier, KEY_FN, KEY_FN2, KEY_DUMMY, KEY_LSHIFT, KEY_CTRL, KEY_ALT,
            KEY_ALTGR, KEY_SUPER, KEY_RSHIFT] at h1 h2 h3 ⊢
          omega)
       | simp [KEYS_row3, mkKey0, mkKey1, mkKey2, mkKey3, eInt, Key.is_fn, Key.is_fn2,
           Key.is_modifier, KEY_FN, KEY_FN2, KEY_DUMMY, KEY_LSHIFT, KEY_CTRL, KEY_ALT,
           KEY_ALTGR, KEY_SUPER, KEY_RSHIFT] at h1 h2 h3 ⊢
       | omega)

theorem KEYS_row4_mod_ok (ext : ExtName → Nat) : ∀ c, mod_range_ok (KEYS_row4 ext c) := by
  intro c
  unfold mod_range_ok
  rcases c with _|_|_|_|_|_|_|_|_|_|_|_|_|_|c <;>
    (intro h1 h2 h3
     first
       | (simp [KEYS_row4, mkKey0, mkKey1, mkKey2, mkKey3, eInt, Key.is_fn, Key.is_fn2,
            Key.is_modifier, KEY_FN, KEY_FN2, KEY_DUMMY, KEY_LSHIFT, KEY_CTRL, KEY_ALT,
            KEY_ALTGR, KEY_SUPER, KEY_RSHIFT] at h1 h2 h3 ⊢
          omega)
       | simp [KEYS_row4, mkKey0, mkKey1, mkKey2, mkKey3, eInt, Key.is_fn, Key.is_fn2,
           Key.is_modifier, KEY_FN, KEY_FN2, KEY_DUMMY, KEY_LSHIFT, KEY_CTRL, KEY_ALT,
           KEY_ALTGR, KEY_SUPER, KEY_RSHIFT] at h1 h2 h3 ⊢
       | omega)

theorem KEYS_SPECIAL_row0_mod_ok (ext : ExtName → Nat) :
    ∀ c, mod_range_ok (KEYS_SPECIAL_row0 ext c) := by
  intro c
  unfold mod_range_ok
  rcases c with _|_|_|_|_|_|_|_|_|_|_|_|_|_|c <;>
    (intro h1 h2 h3
     first
       | (simp [KEYS_SPECIAL_row0, mkKey0, mkKey1, mkKey2, mkKey3, eInt, Key.is_fn,
            Key.is_fn2, Key.is_modifier, KEY_FN, KEY_FN2, KEY_DUMMY, KEY_LSHIFT, KEY_CTRL,
            KEY_ALT, KEY_ALTGR, KEY_SUPER, KEY_RSHIFT] at h1 h2 h3 ⊢
          omega)
       | simp [KEYS_SPECIAL_row0, mkKey0, mkKey1, mkKey2, mkKey3, eInt, Key.is_fn,
           Key.is_fn2, Key.is_modifier, KEY_FN, KEY_FN2, KEY_DUMMY, KEY_LSHIFT, KEY_CTRL,
           KEY_ALT, KEY_ALTGR, KEY_SUPER, KEY_RSHIFT] at h1 h2 h3 ⊢
       | omega)

theorem KEYS_mod_ok (ext : ExtName → Nat) : ∀ r c, mod_range_ok (KEYS ext r c) := by
  intro r c
  rcases r with _|_|_|_|_|r
  · exact KEYS_row0_mod_ok ext c
  · exact KEYS_row1_mod_ok ext c
  · exact KEYS_row2_mod_ok ext c
  · exact KEYS_row3_mod_ok ext c
  · exact KEYS_row4_mod_ok ext c
  · intro h1 h2 h3
    simp [KEYS, mkKey0, Key.is_modifier, KEY_DUMMY] at h3

theorem KEYS_SPECIAL_mod_ok (ext : ExtName → Nat) :
    ∀ r c, mod_range_ok (KEYS_SPECIAL ext r c) := by
  intro r c
  rcases r with _|_|_|_|_|r
  · exact KEYS_SPECIAL_row0_mod_ok ext c
  · exact KEYS_row1_mod_ok ext c
  · exact KEYS_row2_mod_ok ext c
  · exact KEYS_row3_mod_ok ext c
  · exact KEYS_row4_mod_ok ext c
  · intro h1 h2 h3
    simp [KEYS_SPECIAL, mkKey0, Key.is_modifier, KEY_DUMMY] at h3

/-- Claim C10: implicit safety of the modifier translation. In the scan of
the given layout tables, a key reaches `translate_modifier` only after the
`is_fn` and `is_fn2` tests fail and `is_modifier` holds; every such key has
a primary code in `-6 .. -1`, so `MODIFIER_MAP[-code - 1]` indexes within
`0 .. NUM_MODIFIERS - 1`. FN (`-7`) and FN2 (`-8`), whose codes would
index out of bounds, never reach the lookup. -/
theorem c10_modifier_translation_safe :
    (∀ (ext : ExtName → Nat) (r c : Nat),
      (KEYS ext r c).is_fn = false → (KEYS ext r c).is_fn2 = false →
      (KEYS ext r c).is_modifier = true →
      (-6 ≤ (KEYS ext r c).code ∧ (KEYS ext r c).code ≤ -1 ∧
        (-(KEYS ext r c).code - 1).toNat < NUM_MODIFIERS ∧
        (-(KEYS ext r c).code - 1).toNat < (MODIFIER_MAP ext).length)) ∧
    (∀ (ext : ExtName → Nat) (r c : Nat),
      (KEYS_SPECIAL ext r c).is_fn = false → (KEYS_SPECIAL ext r c).is_fn2 = false →
      (KEYS_SPECIAL ext r c).is_modifier = true →
      (-6 ≤ (KEYS_SPECIAL ext r c).code ∧ (KEYS_SPECIAL ext r c).code ≤ -1 ∧
        (-(KEYS_SPECIAL ext r c).code - 1).toNat < NUM_MODIFIERS ∧
        (-(KEYS_SPECIAL ext r c).code - 1).toNat < (MODIFIER_MAP ext).length)) ∧
    (¬((-KEY_FN - 1).toNat < NUM_MODIFIERS) ∧ ¬((-KEY_FN2 - 1).toNat < NUM_MODIFIERS)) := by
  refine ⟨?_, ?_, by decide, by decide⟩
  · intro ext r c h1 h2 h3
    obtain ⟨hb1, hb2⟩ := KEYS_mod_ok ext r c h1 h2 h3
    have hlen : (MODIFIER_MAP ext).length = 6 := rfl
    refine ⟨hb1, hb2, by simp [NUM_MODIFIERS]; omega, by rw [hlen]; omega⟩
  · intro ext r c h1 h2 h3
    obtain ⟨hb1, hb2⟩ := KEYS_SPECIAL_mod_ok ext r c h1 h2 h3
    have hlen : (MODIFIER_MAP ext).length = 6 := rfl
    refine ⟨hb1, hb2, by simp [NUM_MODIFIERS]; omega, by rw [hlen]; omega⟩

/-- Claim C10, witness: the left-control key at row 4, column 0 reaches the
modifier branch and its lookup index is 1, in bounds. -/
theorem c10_witness :
    ((KEYS extOne 4 0).is_fn = false ∧ (KEYS extOne 4 0).is_fn2 = false ∧
      (KEYS extOne 4 0).is_modifier = true) ∧
    (-6 ≤ (KEYS extOne 4 0).code ∧ (KEYS extOne 4 0).code ≤ -1 ∧
      (-(KEYS extOne 4 0).code - 1).toNat < NUM_MODIFIERS ∧
      (-(KEYS extOne 4 0).code - 1).toNat < (MODIFIER_MAP extOne).length) :=
  ⟨⟨by decide, by decide, by decide⟩,
   c10_modifier_translation_safe.1 extOne 4 0 (by decide) (by decide) (by decide)⟩

end Ze
